import Mathlib

/-!
# Verification of the time-toolkit operations (`server.py`)

A shallow embedding of the eight operations of the MCP time server
(`get_current_time`, `get_timezone_info`, `list_timezones`, `parse_datetime`,
`compare_times`, `add_time_delta`, `is_valid_datetime`, `unix_to_datetime`).

Modelling choices, stated once here:

* `DateTime` is an instant at second granularity (the default format and the
  spec's data model never mention sub-second fields); calendar arithmetic is
  the proleptic Gregorian calendar used by Python's `datetime`, years 1..9999.
* `strptime` models CPython's `_strptime` for the numeric directives
  `%Y %m %d %H %M %S`, the escape `%%`, literal characters and whitespace
  (a run of whitespace in the format matches one or more whitespace characters
  of the input, as `_strptime` compiles it to a single regex `\s+`).  The
  regex alternations for the two-digit fields (two digits tried before one,
  with backtracking) are reproduced.  Other directives, stray `%`, and
  duplicated directives make the parse fail, as they raise `ValueError`
  in `_strptime` or fall outside the modelled subset.
* `strftime` renders `%Y` without zero padding (glibc behaviour, visible for
  years below 1000), and the other numeric directives zero padded;
  `datetime.isoformat` always pads the year to four digits.
* The external state read by the operations is an explicit `Env`: the system
  timezone database (name, UTC offset and abbreviation as functions of the
  Unix instant, so daylight-saving rules are expressible), the wall clock as
  a Unix timestamp, and the platform's local zone as the UTC offset
  `localtime` reports at each instant.  `datetime.timestamp()` of a naive
  value is CPython's `_mktime` with `fold = 0`: it probes `localtime`, and
  each probe raises `ValueError` when it leaves years 1..9999 (the probe one
  day below the found solution makes even `datetime.min.timestamp()` raise);
  at a DST fold it returns the earlier occurrence.  `int(dt.timestamp())`
  inside `parse_datetime` and `add_time_delta` therefore reaches their
  `except ValueError` handlers.  The wall clock's own reading in
  `get_current_time` is modelled as exact, which is faithful away from a
  fold of the current instant.
* Every operation returns `Except ErrPayload <payload>`; totality of these
  Lean functions embeds the catch-all `except` handlers at each operation
  boundary.  The platform `time_t` conversion bound of
  `datetime.fromtimestamp` is modelled as `2^63` (64-bit Linux); an integer
  beyond it raises `OverflowError` in Python, which the
  `except (ValueError, OSError)` clause of `unix_to_datetime` does not catch,
  so that path produces an error payload without a `hint`.
-/

/-- Proleptic-Gregorian leap-year rule, as in Python's `datetime`/`calendar`. -/
def isLeapYear (y : Nat) : Bool :=
  decide ((y % 4 = 0 ∧ ¬ y % 100 = 0) ∨ y % 400 = 0)

/-- Length of month `m` of year `y` (`_days_in_month` in CPython). -/
def daysInMonth (y m : Nat) : Nat :=
  if m = 2 then (if isLeapYear y then 29 else 28)
  else if m = 4 ∨ m = 6 ∨ m = 9 ∨ m = 11 then 30
  else 31

/-- Length of year `y` in days. -/
def daysInYear (y : Nat) : Nat := if isLeapYear y then 366 else 365

/-- Days in the years `1, …, y-1` (CPython's `_days_before_year`), closed form. -/
def daysBeforeYear (y : Nat) : Nat :=
  let n := y - 1
  365 * n + n / 4 + n / 400 - n / 100

/-- Days of year `y` strictly before month `m` (CPython's `_days_before_month`
table `_DAYS_BEFORE_MONTH` plus the leap adjustment). -/
def daysBeforeMonth (y m : Nat) : Nat :=
  let f := if isLeapYear y then 1 else 0
  match m with
  | 2 => 31 | 3 => 59 + f | 4 => 90 + f | 5 => 120 + f | 6 => 151 + f
  | 7 => 181 + f | 8 => 212 + f | 9 => 243 + f | 10 => 273 + f
  | 11 => 304 + f | 12 => 334 + f | 13 => 365 + f
  | _ => 0

/-- A `datetime` value at second granularity. -/
structure DateTime where
  year : Nat
  month : Nat
  day : Nat
  hour : Nat
  minute : Nat
  second : Nat
  deriving Repr, DecidableEq

/-- Day number of a date, with `0001-01-01` as day 0 (CPython `_ymd2ord - 1`). -/
def toOrdinal (dt : DateTime) : Nat :=
  daysBeforeYear dt.year + daysBeforeMonth dt.year dt.month + (dt.day - 1)

/-- Seconds since `0001-01-01 00:00:00`. -/
def toSeconds (dt : DateTime) : Nat :=
  toOrdinal dt * 86400 + dt.hour * 3600 + dt.minute * 60 + dt.second

/-- Year peeling loop of ordinal-to-date conversion: starting at year `y`,
subtract whole years from `n` while they fit.  Fuel keeps it structural. -/
def ord2y : Nat → Nat → Nat → Nat × Nat
  | 0, n, y => (y, n)
  | fuel + 1, n, y =>
    if daysInYear y ≤ n then ord2y fuel (n - daysInYear y) (y + 1) else (y, n)

/-- Month peeling loop inside one year: `k` is a 0-based day-of-year. -/
def findMonth (y : Nat) : Nat → Nat → Nat → Nat × Nat
  | 0, k, m => (m, k)
  | fuel + 1, k, m =>
    if daysInMonth y m ≤ k then findMonth y fuel (k - daysInMonth y m) (m + 1)
    else (m, k)

/-- Day number to `(year, month, day)` (CPython's `_ord2ymd`). -/
def fromOrdinal (n : Nat) : Nat × Nat × Nat :=
  let p := ord2y 9998 n 1
  let q := findMonth p.1 11 p.2 1
  (p.1, q.1, q.2 + 1)

/-- Seconds since `0001-01-01 00:00:00` to a `DateTime`. -/
def fromSeconds (n : Nat) : DateTime :=
  let d := fromOrdinal (n / 86400)
  let r := n % 86400
  ⟨d.1, d.2.1, d.2.2, r / 3600, r % 3600 / 60, r % 60⟩

/-- The bounds `datetime` enforces on each field (`MINYEAR = 1`,
`MAXYEAR = 9999`, day valid for the month). -/
def validDT (dt : DateTime) : Prop :=
  1 ≤ dt.year ∧ dt.year ≤ 9999 ∧ 1 ≤ dt.month ∧ dt.month ≤ 12 ∧
  1 ≤ dt.day ∧ dt.day ≤ daysInMonth dt.year dt.month ∧
  dt.hour ≤ 23 ∧ dt.minute ≤ 59 ∧ dt.second ≤ 59

instance (dt : DateTime) : Decidable (validDT dt) := by
  unfold validDT; infer_instance

/-- One second past the last representable instant, `10000-01-01 00:00:00`. -/
def maxCivilSeconds : Nat := daysBeforeYear 10000 * 86400

/-- Python's `datetime < datetime`: lexicographic on the six fields. -/
def lexLt (a b : DateTime) : Prop :=
  a.year < b.year ∨ (a.year = b.year ∧
  (a.month < b.month ∨ (a.month = b.month ∧
  (a.day < b.day ∨ (a.day = b.day ∧
  (a.hour < b.hour ∨ (a.hour = b.hour ∧
  (a.minute < b.minute ∨ (a.minute = b.minute ∧
  a.second < b.second)))))))))

instance (a b : DateTime) : Decidable (lexLt a b) := by
  unfold lexLt; infer_instance

/- ## Rendering (`strftime`, `isoformat`) -/

def digitChar (n : Nat) : Char := Char.ofNat (48 + n)

def pad2 (n : Nat) : List Char := [digitChar (n / 10), digitChar (n % 10)]

def pad4 (n : Nat) : List Char :=
  [digitChar (n / 1000), digitChar (n / 100 % 10), digitChar (n / 10 % 10),
   digitChar (n % 10)]

/-- `%Y` under glibc `strftime`: not zero padded (years below 1000 render
with fewer than four digits). -/
def renderY (y : Nat) : List Char := if y < 1000 then (Nat.repr y).data else pad4 y

def weekdayNames : List String :=
  ["Monday", "Tuesday", "Wednesday", "Thursday", "Friday", "Saturday", "Sunday"]

def monthNames : List String :=
  ["January", "February", "March", "April", "May", "June", "July", "August",
   "September", "October", "November", "December"]

/-- `%A`: day 0 (`0001-01-01`) is a Monday. -/
def weekdayName (dt : DateTime) : String := weekdayNames.getD (toOrdinal dt % 7) ""

def monthName (m : Nat) : String := monthNames.getD (m - 1) ""

def hour12 (h : Nat) : Nat := (h + 11) % 12 + 1

def ampm (h : Nat) : String := if h < 12 then "AM" else "PM"

/-- One `strftime` directive; unknown directives pass through. -/
def renderDir (dt : DateTime) (c : Char) : List Char :=
  if c = 'Y' then renderY dt.year
  else if c = 'm' then pad2 dt.month
  else if c = 'd' then pad2 dt.day
  else if c = 'H' then pad2 dt.hour
  else if c = 'M' then pad2 dt.minute
  else if c = 'S' then pad2 dt.second
  else if c = 'I' then pad2 (hour12 dt.hour)
  else if c = 'p' then (ampm dt.hour).data
  else if c = 'A' then (weekdayName dt).data
  else if c = 'B' then (monthName dt.month).data
  else if c = '%' then ['%']
  else ['%', c]

/-- `strftime` over the modelled directives. -/
def renderF (dt : DateTime) : List Char → List Char
  | [] => []
  | c :: fr =>
    if c = '%' then
      match fr with
      | [] => ['%']
      | c2 :: fr2 => renderDir dt c2 ++ renderF dt fr2
    else c :: renderF dt fr

def strftime (dt : DateTime) (f : String) : String := ⟨renderF dt f.data⟩

/-- `datetime.isoformat()` for a naive value: the year always four digits. -/
def isoformat (dt : DateTime) : String :=
  ⟨pad4 dt.year ++ '-' :: pad2 dt.month ++ '-' :: pad2 dt.day ++
   'T' :: pad2 dt.hour ++ ':' :: pad2 dt.minute ++ ':' :: pad2 dt.second⟩

/-- UTC-offset suffix of an aware `isoformat`: `±HH:MM`, with `:SS` only when
the offset has a seconds part. -/
def renderOffsetIso (off : Int) : String :=
  let a := off.natAbs
  let sgn := if off < 0 then "-" else "+"
  let base := sgn ++ String.mk (pad2 (a / 3600)) ++ ":" ++ String.mk (pad2 (a % 3600 / 60))
  if a % 60 = 0 then base else base ++ ":" ++ String.mk (pad2 (a % 60))

/-- `strftime("%z")` for an aware value: `±HHMM`, plus `SS` when needed. -/
def renderOffsetZ (off : Int) : String :=
  let a := off.natAbs
  let sgn := if off < 0 then "-" else "+"
  let base := sgn ++ String.mk (pad2 (a / 3600)) ++ String.mk (pad2 (a % 3600 / 60))
  if a % 60 = 0 then base else base ++ String.mk (pad2 (a % 60))

/- ## Parsing (`datetime.strptime`, CPython `_strptime`) -/

def charToDigit (c : Char) : Option Nat :=
  if 48 ≤ c.toNat ∧ c.toNat ≤ 57 then some (c.toNat - 48) else none

/-- The raw captured fields of one `_strptime` match. -/
structure RawFields where
  Y : Option Nat := none
  m : Option Nat := none
  d : Option Nat := none
  H : Option Nat := none
  M : Option Nat := none
  S : Option Nat := none
  deriving Repr, DecidableEq

/-- The two-digit alternative of a numeric directive: two digits forming a
value in `[lo, hi]`, then the continuation `k` on the rest. -/
def twoRes (lo hi : Nat) (upd : Nat → RawFields → RawFields)
    (k : List Char → Option RawFields) : List Char → Option RawFields
  | c1 :: c2 :: rest =>
    match charToDigit c1, charToDigit c2 with
    | some a, some b =>
      if lo ≤ 10 * a + b ∧ 10 * a + b ≤ hi then (k rest).map (upd (10 * a + b))
      else none
    | _, _ => none
  | _ => none

/-- The one-digit alternative: a single digit at least `lo`. -/
def oneRes (lo : Nat) (upd : Nat → RawFields → RawFields)
    (k : List Char → Option RawFields) : List Char → Option RawFields
  | c1 :: rest =>
    match charToDigit c1 with
    | some a => if lo ≤ a then (k rest).map (upd a) else none
    | none => none
  | [] => none

/-- A two-digit numeric directive: the regex alternation tries the two-digit
match first, then a single digit, backtracking into the continuation `k`
exactly as `re` does. -/
def num2 (lo hi : Nat) (upd : Nat → RawFields → RawFields)
    (k : List Char → Option RawFields) (cs : List Char) : Option RawFields :=
  match twoRes lo hi upd k cs with
  | some r => some r
  | none => oneRes lo upd k cs

/-- `%Y`: exactly four digits. -/
def num4 (upd : Nat → RawFields → RawFields)
    (k : List Char → Option RawFields) (cs : List Char) : Option RawFields :=
  match cs with
  | c1 :: c2 :: c3 :: c4 :: rest =>
    match charToDigit c1, charToDigit c2, charToDigit c3, charToDigit c4 with
    | some a, some b, some c, some d =>
      (k rest).map (upd (1000 * a + 100 * b + 10 * c + d))
    | _, _, _, _ => none
  | _ => none

/-- Matching loop of the compiled format regex against the input.  The flag
records that the previous format token was whitespace, whose `\s+` already
consumed the maximal whitespace run, so further format whitespace matches
the empty string (a whitespace run in the format compiles to one `\s+`). -/
def runF : Bool → List Char → List Char → Option RawFields
  | _, [], [] => some {}
  | _, [], _ :: _ => none
  | aw, c :: fr, cs =>
    if c = '%' then
      match fr with
      | [] => none
      | c2 :: fr2 =>
        if c2 = 'Y' then num4 (fun v r => { r with Y := some v }) (runF false fr2) cs
        else if c2 = 'm' then num2 1 12 (fun v r => { r with m := some v }) (runF false fr2) cs
        else if c2 = 'd' then num2 1 31 (fun v r => { r with d := some v }) (runF false fr2) cs
        else if c2 = 'H' then num2 0 23 (fun v r => { r with H := some v }) (runF false fr2) cs
        else if c2 = 'M' then num2 0 59 (fun v r => { r with M := some v }) (runF false fr2) cs
        else if c2 = 'S' then num2 0 59 (fun v r => { r with S := some v }) (runF false fr2) cs
        else if c2 = '%' then
          match cs with
          | x :: xs => if x = '%' then runF false fr2 xs else none
          | [] => none
        else none
    else if c.isWhitespace then
      if aw then runF true fr cs
      else
        let cs' := cs.dropWhile Char.isWhitespace
        if cs'.length = cs.length then none else runF true fr cs'
    else
      match cs with
      | x :: xs => if x = c then runF false fr xs else none
      | [] => none

/-- The directive letters of a format (skipping `%%`). -/
def dirsOf : List Char → List Char
  | [] => []
  | c :: fr =>
    if c = '%' then
      match fr with
      | [] => []
      | c2 :: fr2 => if c2 = '%' then dirsOf fr2 else c2 :: dirsOf fr2
    else dirsOf fr

def knownDirs : List Char := ['Y', 'm', 'd', 'H', 'M', 'S']

/-- Every `%` introduces a known directive (or `%%`); a stray trailing `%`
is rejected (`ValueError: stray %% in format` in `_strptime`). -/
def goodDirs : List Char → Bool
  | [] => true
  | c :: fr =>
    if c = '%' then
      match fr with
      | [] => false
      | c2 :: fr2 => (c2 == '%' || knownDirs.contains c2) && goodDirs fr2
    else goodDirs fr

/-- Format acceptance: known directives only, and none repeated
(`_strptime` raises `ValueError` on a redefined group name). -/
def fmtOk (f : List Char) : Bool := goodDirs f && decide (dirsOf f).Nodup

/-- `datetime(...)` construction from the captured fields, with `_strptime`
defaults (1900-01-01 00:00:00) and the constructor's range validation. -/
def mkDateTime (r : RawFields) : Except String DateTime :=
  let y := r.Y.getD 1900
  let mo := r.m.getD 1
  let dd := r.d.getD 1
  let hh := r.H.getD 0
  let mi := r.M.getD 0
  let ss := r.S.getD 0
  if 1 ≤ y ∧ 1 ≤ mo ∧ mo ≤ 12 ∧ 1 ≤ dd ∧ dd ≤ daysInMonth y mo ∧
     hh ≤ 23 ∧ mi ≤ 59 ∧ ss ≤ 59 then
    .ok ⟨y, mo, dd, hh, mi, ss⟩
  else .error "field value out of range"

/-- `datetime.strptime(s, f)`, returning the `ValueError` message on failure. -/
def strptime (s f : String) : Except String DateTime :=
  if fmtOk f.data then
    match runF false f.data s.data with
    | some r => mkDateTime r
    | none => .error (s!"time data {s} does not match format {f}")
  else .error "bad or duplicate directive in format"

/- ## The environment and the result shape -/

/-- A zone of the system timezone database: its IANA name, and its UTC
offset (seconds) and abbreviation as functions of the Unix instant they are
asked at (daylight-saving rules make both instant-dependent). -/
structure TZEntry where
  name : String
  offset : Int → Int
  zoneAbbrev : Int → String

/-- External read-only state: timezone database, wall clock (Unix seconds),
and the platform's local zone as the UTC offset (seconds) that `localtime`
reports at each Unix instant. -/
structure Env where
  db : List TZEntry
  nowUnix : Int
  localRule : Int → Int

def lookupZone (env : Env) (t : String) : Option TZEntry :=
  env.db.find? (fun z => z.name == t)

def available_timezones (env : Env) : List String :=
  env.db.map (fun z => z.name)

/-- Lexicographic code-point order on strings (Python's `<=` on `str`,
which `sorted` uses), as an executable comparison. -/
def strLeB : List Char → List Char → Bool
  | [], _ => true
  | _ :: _, [] => false
  | a :: as1, b :: bs1 =>
    if a.toNat < b.toNat then true
    else if b.toNat < a.toNat then false
    else strLeB as1 bs1

def strLe (a b : String) : Bool := strLeB a.data b.data

def sortedZoneNames (env : Env) : List String :=
  List.insertionSort (fun a b => strLe a b = true) (available_timezones env)

/-- The structured error payload: a message, and optionally a hint or a
sample of valid timezone names. -/
structure ErrPayload where
  message : String
  hint : Option String := none
  available_timezones_sample : Option (List String) := none
  deriving Repr, DecidableEq

/-- Seconds from `0001-01-01` to the Unix epoch `1970-01-01`. -/
def epochSecs : Int := ((daysBeforeYear 1970 * 86400 : Nat) : Int)

/-- Civil `DateTime` of a Unix instant shifted by a UTC offset.  Total: the
operations guard the range before calling it (absurd inputs clamp at 0). -/
def civilOfUnix (u : Int) : DateTime := fromSeconds (u + epochSecs).toNat

/-- `datetime.now()` (naive, local). -/
def localNow (env : Env) : DateTime :=
  civilOfUnix (env.nowUnix + env.localRule env.nowUnix)

/-- The civil-seconds value of the probe `localtime(u)` used by `_mktime`:
the local civil time of the Unix instant `u` on the calendar's absolute
second scale. -/
def probeCivil (env : Env) (u : Int) : Int := u + env.localRule u + epochSecs

/-- The `ValueError` message `datetime(*localtime(u)[:6])` raises when the
probed local time leaves years 1..9999.  Exact for probes within one year of
either bound (every case the operations reach with real-world offset rules);
more distant years are summarised. -/
def probeErrMsg (c : Int) : String :=
  if c < 0 then
    if -(366 * 86400 : Int) ≤ c then "year 0 is out of range"
    else "year out of range"
  else
    if c < (maxCivilSeconds : Int) + 366 * 86400 then "year 10000 is out of range"
    else "year out of range"

/-- One probe of `_mktime`'s `local(u)`: construct a naive datetime from
`localtime(u)[:6]` and return it as seconds since the Unix epoch, or the
`ValueError` when the fields are outside years 1..9999. -/
def localProbe (env : Env) (u : Int) : Except String Int :=
  let c := probeCivil env u
  if 0 ≤ c ∧ c < (maxCivilSeconds : Int) then .ok (u + env.localRule u)
  else .error (probeErrMsg c)

/-- `dt.timestamp()` of a naive value: CPython's `datetime._mktime` with
`fold = 0`.  It solves `t = local(u)` by probing `localtime`; every probe
can raise `ValueError` at the calendar bounds (including the probe one day
below the solution), and at a DST fold the earlier occurrence is returned. -/
def naiveTimestamp (env : Env) (dt : DateTime) : Except String Int :=
  let t : Int := (toSeconds dt : Int) - epochSecs
  match localProbe env t with
  | .error e => .error e
  | .ok lt0 =>
    let a := lt0 - t
    let u1 := t - a
    match localProbe env u1 with
    | .error e => .error e
    | .ok t1 =>
      if t1 = t then
        match localProbe env (u1 - 86400) with
        | .error e => .error e
        | .ok lu2 =>
          let b := lu2 - (u1 - 86400)
          if a = b then .ok u1
          else
            let u2 := t - b
            match localProbe env u2 with
            | .error e => .error e
            | .ok t2 => if t2 = t then .ok u2 else .ok u1
      else
        let b := t1 - u1
        let u2 := t - b
        match localProbe env u2 with
        | .error e => .error e
        | .ok t2 =>
          if t2 = t then .ok u2
          else .ok (max u1 u2)

/- ## The eight operations -/

structure CurrentTimePayload where
  datetime : String
  date : String
  time : String
  time_12h : String
  timezone : String
  timezone_offset : String
  day_of_week : String
  unix_timestamp : Int
  formatted : String
  deriving Repr, DecidableEq

def mkTimePayload (now : DateTime) (tzLabel : String) (off : Option Int)
    (uts : Int) : CurrentTimePayload :=
  { datetime := match off with
      | some o => isoformat now ++ renderOffsetIso o
      | none => isoformat now
    date := strftime now "%Y-%m-%d"
    time := strftime now "%H:%M:%S"
    time_12h := strftime now "%I:%M:%S %p"
    timezone := tzLabel
    timezone_offset := match off with
      | some o => renderOffsetZ o
      | none => ""
    day_of_week := weekdayName now
    unix_timestamp := uts
    formatted := strftime now "%A, %B %d, %Y at %I:%M:%S %p" }

/-- `get_current_time(tz=None)`.  `if tz:` — the empty string is falsy and
takes the local branch. -/
def get_current_time (env : Env) (tz : Option String) :
    Except ErrPayload CurrentTimePayload :=
  match tz with
  | some t =>
    if t ≠ "" then
      match lookupZone env t with
      | none => .error { message := "Invalid timezone: " ++ t,
                         available_timezones_sample := some ((sortedZoneNames env).take 10) }
      | some z =>
        .ok (mkTimePayload (civilOfUnix (env.nowUnix + z.offset env.nowUnix)) t
              (some (z.offset env.nowUnix)) env.nowUnix)
    else
      .ok (mkTimePayload (localNow env) "local" none env.nowUnix)
  | none =>
      .ok (mkTimePayload (localNow env) "local" none env.nowUnix)

structure TZInfoPayload where
  timezone : String
  current_time : String
  offset : String
  offset_hours : ℚ
  abbreviation : String
  deriving Repr, DecidableEq

/-- `get_timezone_info(tz)`. -/
def get_timezone_info (env : Env) (tz : String) :
    Except ErrPayload TZInfoPayload :=
  match lookupZone env tz with
  | none => .error { message := "Invalid timezone: " ++ tz,
                     hint := some "Use list_timezones to see available options" }
  | some z =>
    .ok { timezone := tz
          current_time := isoformat (civilOfUnix (env.nowUnix + z.offset env.nowUnix)) ++
            renderOffsetIso (z.offset env.nowUnix)
          offset := renderOffsetZ (z.offset env.nowUnix)
          offset_hours := ((z.offset env.nowUnix : Int) : ℚ) / 3600
          abbreviation := z.zoneAbbrev env.nowUnix }

structure ListTZPayload where
  count : Nat
  timezones : List String
  deriving Repr, DecidableEq

/-- Substring check on character lists (Python's `in` on strings). -/
def leadsWith : List Char → List Char → Bool
  | [], _ => true
  | _ :: _, [] => false
  | n :: ns, h :: hs => n == h && leadsWith ns hs

def isSubList : List Char → List Char → Bool
  | [], _ => true
  | _ :: _, [] => false
  | n :: ns, h :: hs => leadsWith (n :: ns) (h :: hs) || isSubList (n :: ns) hs

def lowerStr (s : String) : String := ⟨s.data.map Char.toLower⟩

/-- `filter_lower in z.lower()`. -/
def containsCI (needle hay : String) : Bool :=
  isSubList (lowerStr needle).data (lowerStr hay).data

/-- `list_timezones(filter_text=None)`.  `if filter_text:` — the empty
string is falsy, so it does not filter. -/
def list_timezones (env : Env) (filter_text : Option String) :
    Except ErrPayload ListTZPayload :=
  let zones := sortedZoneNames env
  let zones := match filter_text with
    | some f => if f ≠ "" then zones.filter (fun z => containsCI f z) else zones
    | none => zones
  .ok { count := zones.length, timezones := zones }

structure ParsePayload where
  original : String
  parsed : String
  date : String
  time : String
  day_of_week : String
  unix_timestamp : Int
  is_past : Bool
  is_future : Bool
  deriving Repr, DecidableEq

/-- `parse_datetime(date_string, format_string)`.  Building the payload
computes `int(dt.timestamp())`; its `ValueError` at the calendar bounds is
caught by the same `except ValueError` clause as a parse failure. -/
def parse_datetime (env : Env) (date_string : String)
    (format_string : String) : Except ErrPayload ParsePayload :=
  match strptime date_string format_string with
  | .ok dt =>
    match naiveTimestamp env dt with
    | .ok uts =>
      .ok { original := date_string
            parsed := isoformat dt
            date := strftime dt "%Y-%m-%d"
            time := strftime dt "%H:%M:%S"
            day_of_week := weekdayName dt
            unix_timestamp := uts
            is_past := decide (lexLt dt (localNow env))
            is_future := decide (lexLt (localNow env) dt) }
    | .error e => .error { message := "Failed to parse date: " ++ e,
                           hint := some "Check that your date_string matches the format_string" }
  | .error e => .error { message := "Failed to parse date: " ++ e,
                         hint := some "Check that your date_string matches the format_string" }

structure DiffFormatted where
  days : Nat
  hours : Nat
  minutes : Nat
  seconds : Nat
  deriving Repr, DecidableEq

structure ComparePayload where
  time1 : String
  time2 : String
  difference_seconds : Int
  difference_days : Int
  difference_formatted : DiffFormatted
  time1_is_before_time2 : Bool
  time1_is_after_time2 : Bool
  times_are_equal : Bool
  deriving Repr, DecidableEq

/-- `compare_times(time1, time2, format_string)`.  `timedelta.days` floors
(Python's normalisation), `abs(diff)` drives the decomposition. -/
def compare_times (time1 time2 : String) (format_string : String) :
    Except ErrPayload ComparePayload :=
  match strptime time1 format_string with
  | .error e => .error { message := "Failed to parse dates: " ++ e,
                         hint := some "Check that both time strings match the format_string" }
  | .ok dt1 =>
    match strptime time2 format_string with
    | .error e => .error { message := "Failed to parse dates: " ++ e,
                           hint := some "Check that both time strings match the format_string" }
    | .ok dt2 =>
      let diff : Int := (toSeconds dt2 : Int) - (toSeconds dt1 : Int)
      let a : Nat := diff.natAbs
      .ok { time1 := isoformat dt1
            time2 := isoformat dt2
            difference_seconds := diff
            difference_days := Int.fdiv diff 86400
            difference_formatted :=
              { days := a / 86400
                hours := a % 86400 / 3600
                minutes := a % 86400 % 3600 / 60
                seconds := a % 86400 % 3600 % 60 }
            time1_is_before_time2 := decide (lexLt dt1 dt2)
            time1_is_after_time2 := decide (lexLt dt2 dt1)
            times_are_equal := decide (dt1 = dt2) }

structure DeltaApplied where
  days : Int
  hours : Int
  minutes : Int
  seconds : Int
  deriving Repr, DecidableEq

structure AddDeltaPayload where
  original : String
  delta_applied : DeltaApplied
  result : String
  formatted : String
  unix_timestamp : Int
  deriving Repr, DecidableEq

/-- `add_time_delta(base_time, days, hours, minutes, seconds, format_string)`.
`dt + timedelta(...)` raises `OverflowError` outside years 1..9999 (and
`timedelta` itself overflows past ±999999999 days); both are caught by the
generic handler, giving an error payload with only a message. -/
def add_time_delta (env : Env) (base_time : String)
    (days hours minutes seconds : Int) (format_string : String) :
    Except ErrPayload AddDeltaPayload :=
  match strptime base_time format_string with
  | .error e => .error { message := "Failed to parse date: " ++ e,
                         hint := some "Check that your base_time matches the format_string" }
  | .ok dt =>
    let delta := days * 86400 + hours * 3600 + minutes * 60 + seconds
    let t : Int := (toSeconds dt : Int) + delta
    if 0 ≤ t ∧ t < (maxCivilSeconds : Int) then
      let new_dt := fromSeconds t.toNat
      match naiveTimestamp env new_dt with
      | .ok uts =>
        .ok { original := isoformat dt
              delta_applied := ⟨days, hours, minutes, seconds⟩
              result := isoformat new_dt
              formatted := strftime new_dt "%A, %B %d, %Y at %I:%M:%S %p"
              unix_timestamp := uts }
      | .error e => .error { message := "Failed to parse date: " ++ e,
                             hint := some "Check that your base_time matches the format_string" }
    else .error { message := "date value out of range" }

structure ValidPayload where
  valid : Bool
  parsed : Option String := none
  error : Option String := none
  message : String
  deriving Repr, DecidableEq

/-- `is_valid_datetime(date_string, format_string)`: always a normal payload. -/
def is_valid_datetime (date_string format_string : String) : ValidPayload :=
  match strptime date_string format_string with
  | .ok dt => { valid := true, parsed := some (isoformat dt),
                message := "Successfully parsed datetime" }
  | .error e => { valid := false, error := some e,
                  message := "Failed to parse datetime with given format" }

structure UnixPayload where
  unix_timestamp : Int
  datetime : String
  date : String
  time : String
  formatted : String
  timezone : String
  /-- The structured civil instant behind the `datetime` string (the model's
  `DateTimeValue`; Python holds it in the local `dt`). -/
  value : DateTime
  deriving Repr, DecidableEq

/-- `datetime.fromtimestamp` and payload construction; `offOpt` is the
explicit zone offset (aware) or `none` (naive, local zone). -/
def convertTs (env : Env) (timestamp : Int) (offOpt : Option Int)
    (label : String) : Except ErrPayload UnixPayload :=
  if timestamp < -(2 ^ 63) ∨ (2 ^ 63 : Int) ≤ timestamp then
    .error { message := "timestamp out of range for platform time_t" }
  else
    let off := offOpt.getD (env.localRule timestamp)
    let s : Int := timestamp + off + epochSecs
    if 0 ≤ s ∧ s < (maxCivilSeconds : Int) then
      let dt := fromSeconds s.toNat
      .ok { unix_timestamp := timestamp
            datetime := match offOpt with
              | some o => isoformat dt ++ renderOffsetIso o
              | none => isoformat dt
            date := strftime dt "%Y-%m-%d"
            time := strftime dt "%H:%M:%S"
            formatted := strftime dt "%A, %B %d, %Y at %I:%M:%S %p"
            timezone := label
            value := dt }
    else
      .error { message := "Invalid timestamp: year out of range",
               hint := some "Timestamp should be a valid Unix timestamp in seconds" }

/-- `unix_to_datetime(timestamp, tz=None)`.  `if tz:` — empty string is
falsy, so it converts in the local zone. -/
def unix_to_datetime (env : Env) (timestamp : Int) (tz : Option String) :
    Except ErrPayload UnixPayload :=
  match tz with
  | some t =>
    if t ≠ "" then
      match lookupZone env t with
      | none => .error { message := "Invalid timezone: " ++ t,
                         hint := some "Use list_timezones to see available options" }
      | some z => convertTs env timestamp (some (z.offset timestamp)) t
    else convertTs env timestamp none "local"
  | none => convertTs env timestamp none "local"

/-- The aware zone offset `unix_to_datetime` converted `ts` with (`none`
when the conversion was naive, in the local zone). -/
def offsetUsed (env : Env) (tz : Option String) (ts : Int) : Option Int :=
  match tz with
  | some t =>
    if t ≠ "" then
      match lookupZone env t with
      | some z => some (z.offset ts)
      | none => none
    else none
  | none => none

/-- The offset `unix_to_datetime` effectively converted `ts` with. -/
def effOffset (env : Env) (tz : Option String) (ts : Int) : Int :=
  (offsetUsed env tz ts).getD (env.localRule ts)

/-- Converting the returned ISO instant back to a Unix timestamp in the same
zone.  An aware ISO string carries its UTC offset, so
`fromisoformat(..).timestamp()` is exact arithmetic with that offset; a
naive (local) string re-enters `_mktime`, which can fail at the calendar
bounds and lands on the earlier side of a DST fold. -/
def backToUnix (env : Env) (p : UnixPayload) (offOpt : Option Int) :
    Except String Int :=
  match offOpt with
  | some o => .ok ((toSeconds p.value : Int) - epochSecs - o)
  | none => naiveTimestamp env p.value

/- ## Auxiliary definitions used by the claim statements -/

/-- A structured result: success, or an error payload whose human-readable
message is nonempty. -/
def okOrMsg {α : Type} (r : Except ErrPayload α) : Prop :=
  match r with
  | .ok _ => True
  | .error e => 0 < e.message.length

/-- The spec's reading of `difference_days` ("signed difference in whole
days"): the number of complete days contained in the signed second
difference, truncated toward zero.  Stated from the spec's words, to be
compared with the implementation's value. -/
def specSignedWholeDays (d : Int) : Int := d.tdiv 86400

/-- A small concrete environment for evaluating the operations: two
fixed-offset zone snapshots, and UTC as the local zone. -/
def env0 : Env :=
  { db := [⟨"America/New_York", fun _ => -18000, fun _ => "EST"⟩,
           ⟨"UTC", fun _ => 0, fun _ => "UTC"⟩]
    nowUnix := 1700000000
    localRule := fun _ => 0 }

/-- An environment whose local zone follows America/New_York across the DST
fall-back of 2024-11-03: at Unix instant 1730613600 (06:00 UTC) the offset
changes from EDT (-4 h) to EST (-5 h), so local 01:00-02:00 occurs twice. -/
def env1 : Env :=
  { db := []
    nowUnix := 0
    localRule := fun u => if u < 1730613600 then -14400 else -18000 }

/-- The payload `compare_times` returns on `00:00:01` versus `00:00:00`. -/
def cmpP0 : ComparePayload :=
  (compare_times "2025-01-01 00:00:01" "2025-01-01 00:00:00"
      "%Y-%m-%d %H:%M:%S").toOption.getD
    ⟨"", "", 0, 0, ⟨0, 0, 0, 0⟩, false, false, false⟩

/-- The payload `compare_times` returns on the test pair of §8. -/
def cmpP1 : ComparePayload :=
  (compare_times "2025-01-01 00:00:00" "2025-12-31 23:59:59"
      "%Y-%m-%d %H:%M:%S").toOption.getD
    ⟨"", "", 0, 0, ⟨0, 0, 0, 0⟩, false, false, false⟩

/-- The payload `unix_to_datetime` returns on the §8 timestamp in UTC. -/
def pU0 : UnixPayload :=
  (unix_to_datetime env0 1732204800 (some "UTC")).toOption.getD
    ⟨0, "", "", "", "", "", ⟨1, 1, 1, 0, 0, 0⟩⟩

/-- The payload `add_time_delta` returns on the §8 example (plus minutes and
seconds components). -/
def pA0 : AddDeltaPayload :=
  (add_time_delta env0 "2025-01-01 00:00:00" 10 5 30 15
      "%Y-%m-%d %H:%M:%S").toOption.getD
    ⟨"", ⟨0, 0, 0, 0⟩, "", "", 0⟩

set_option maxRecDepth 100000

deriving instance DecidableEq for Except

/- ## Calendar lemmas -/

theorem daysBeforeYear_one : daysBeforeYear 1 = 0 := rfl

theorem daysInYear_ge (y : Nat) : 365 ≤ daysInYear y := by
  unfold daysInYear; split <;> omega

theorem dby_step (m q4 q400 q100 i4 i400 i100 : Nat)
    (hq : q100 ≤ m) (hi : i100 ≤ 1) :
    m + 365 * 1 + (q4 + i4) + (q400 + i400) - (q100 + i100)
      = m + q4 + q400 - q100 + (365 + i4 + i400 - i100) := by
  omega

theorem daysBeforeYear_succ {y : Nat} (hy : 1 ≤ y) :
    daysBeforeYear (y + 1) = daysBeforeYear y + daysInYear y := by
  obtain ⟨n, rfl⟩ : ∃ n, y = n + 1 := ⟨y - 1, by omega⟩
  clear hy
  have h4 : (n + 1) / 4 = n / 4 + if (n + 1) % 4 = 0 then 1 else 0 := by
    by_cases hc : (n + 1) % 4 = 0
    · rw [if_pos hc]; omega
    · rw [if_neg hc]; omega
  have h100 : (n + 1) / 100 = n / 100 + if (n + 1) % 100 = 0 then 1 else 0 := by
    by_cases hc : (n + 1) % 100 = 0
    · rw [if_pos hc]; omega
    · rw [if_neg hc]; omega
  have h400 : (n + 1) / 400 = n / 400 + if (n + 1) % 400 = 0 then 1 else 0 := by
    by_cases hc : (n + 1) % 400 = 0
    · rw [if_pos hc]; omega
    · rw [if_neg hc]; omega
  have hdy : daysInYear (n + 1)
      = 365 + (if (n + 1) % 4 = 0 then 1 else 0)
        + (if (n + 1) % 400 = 0 then 1 else 0)
        - (if (n + 1) % 100 = 0 then 1 else 0) := by
    have i1 : (n + 1) % 400 = 0 → (n + 1) % 100 = 0 := by omega
    have i2 : (n + 1) % 100 = 0 → (n + 1) % 4 = 0 := by omega
    by_cases c4 : (n + 1) % 4 = 0 <;> by_cases c100 : (n + 1) % 100 = 0 <;>
      by_cases c400 : (n + 1) % 400 = 0 <;>
      first
      | exact absurd (i1 c400) c100
      | exact absurd (i2 c100) c4
      | simp [daysInYear, isLeapYear, c4, c100, c400]
  simp only [daysBeforeYear, Nat.add_sub_cancel]
  rw [h4, h100, h400, hdy, Nat.mul_add]
  clear h4 h100 h400 hdy
  exact dby_step (365 * n) (n / 4) (n / 400) (n / 100) _ _ _
    (le_trans (Nat.div_le_self n 100) (by omega))
    (by split <;> decide)

theorem daysBeforeYear_mono {a b : Nat} (ha : 1 ≤ a) (hab : a ≤ b) :
    daysBeforeYear a ≤ daysBeforeYear b := by
  induction b, hab using Nat.le_induction with
  | base => exact Nat.le_refl _
  | succ b hb ih =>
    have h := @daysBeforeYear_succ b (by omega)
    omega

theorem daysInMonth_pos (y m : Nat) : 1 ≤ daysInMonth y m := by
  unfold daysInMonth; split_ifs <;> omega

theorem daysBeforeMonth_one (y : Nat) : daysBeforeMonth y 1 = 0 := rfl

theorem daysBeforeMonth_succ {y m : Nat} (h1 : 1 ≤ m) (h12 : m ≤ 12) :
    daysBeforeMonth y (m + 1) = daysBeforeMonth y m + daysInMonth y m := by
  interval_cases m <;>
    simp only [daysBeforeMonth, daysInMonth] <;>
    cases isLeapYear y <;> simp <;> omega

theorem daysBeforeMonth_13 (y : Nat) : daysBeforeMonth y 13 = daysInYear y := by
  simp only [daysBeforeMonth, daysInYear]
  cases isLeapYear y <;> simp

theorem daysBeforeMonth_mono {y m0 m : Nat} (h0 : 1 ≤ m0) (h : m0 ≤ m)
    (hm : m ≤ 13) : daysBeforeMonth y m0 ≤ daysBeforeMonth y m := by
  induction m, h using Nat.le_induction with
  | base => exact Nat.le_refl _
  | succ m hm' ih =>
    have h := @daysBeforeMonth_succ y m (by omega) (by omega)
    have := daysInMonth_pos y m
    have := ih (by omega)
    omega

theorem ord2y_peel : ∀ (fuel y0 y k : Nat), 1 ≤ y0 → y0 ≤ y →
    k < daysInYear y → y - y0 ≤ fuel →
    ord2y fuel (daysBeforeYear y - daysBeforeYear y0 + k) y0 = (y, k) := by
  intro fuel
  induction fuel with
  | zero =>
    intro y0 y k h1 h2 h3 h4
    have hy : y = y0 := by omega
    subst hy
    simp [ord2y, Nat.sub_self]
  | succ fuel ih =>
    intro y0 y k h1 h2 h3 h4
    rcases Nat.eq_or_lt_of_le h2 with heq | hlt
    · subst heq
      have he : daysBeforeYear y0 - daysBeforeYear y0 + k = k := by omega
      rw [he]
      simp only [ord2y]
      rw [if_neg (by omega)]
    · have hstep : daysBeforeYear (y0 + 1) = daysBeforeYear y0 + daysInYear y0 :=
        daysBeforeYear_succ h1
      have hmono : daysBeforeYear (y0 + 1) ≤ daysBeforeYear y :=
        daysBeforeYear_mono (by omega) (by omega)
      have hm0 : daysBeforeYear y0 ≤ daysBeforeYear y :=
        daysBeforeYear_mono h1 (by omega)
      simp only [ord2y]
      rw [if_pos (by omega)]
      have harg : daysBeforeYear y - daysBeforeYear y0 + k - daysInYear y0
          = daysBeforeYear y - daysBeforeYear (y0 + 1) + k := by omega
      rw [harg]
      exact ih (y0 + 1) y k (by omega) (by omega) h3 (by omega)

theorem findMonth_peel : ∀ (fuel : Nat) (y m0 m j : Nat), 1 ≤ m0 → m0 ≤ m →
    m ≤ 12 → j < daysInMonth y m → m - m0 ≤ fuel →
    findMonth y fuel (daysBeforeMonth y m - daysBeforeMonth y m0 + j) m0 = (m, j) := by
  intro fuel
  induction fuel with
  | zero =>
    intro y m0 m j h1 h2 h12 hj h4
    have hm : m = m0 := by omega
    subst hm
    simp [findMonth, Nat.sub_self]
  | succ fuel ih =>
    intro y m0 m j h1 h2 h12 hj h4
    rcases Nat.eq_or_lt_of_le h2 with heq | hlt
    · subst heq
      have he : daysBeforeMonth y m0 - daysBeforeMonth y m0 + j = j := by omega
      rw [he]
      simp only [findMonth]
      rw [if_neg (by omega)]
    · have hstep : daysBeforeMonth y (m0 + 1) = daysBeforeMonth y m0 + daysInMonth y m0 :=
        daysBeforeMonth_succ h1 (by omega)
      have hmono : daysBeforeMonth y (m0 + 1) ≤ daysBeforeMonth y m :=
        daysBeforeMonth_mono (by omega) (by omega) (by omega)
      have hm0 : daysBeforeMonth y m0 ≤ daysBeforeMonth y m :=
        daysBeforeMonth_mono h1 (by omega) (by omega)
      simp only [findMonth]
      rw [if_pos (by omega)]
      have harg : daysBeforeMonth y m - daysBeforeMonth y m0 + j - daysInMonth y m0
          = daysBeforeMonth y m - daysBeforeMonth y (m0 + 1) + j := by omega
      rw [harg]
      exact ih y (m0 + 1) m j (by omega) (by omega) h12 hj (by omega)

theorem ord_decomp : ∀ (Y : Nat), 1 ≤ Y → ∀ n, n < daysBeforeYear Y →
    ∃ y k, 1 ≤ y ∧ y < Y ∧ k < daysInYear y ∧ n = daysBeforeYear y + k := by
  intro Y hY
  induction Y, hY using Nat.le_induction with
  | base => intro n hn; simp [daysBeforeYear_one] at hn
  | succ Y hY ih =>
    intro n hn
    rcases Nat.lt_or_ge n (daysBeforeYear Y) with h | h
    · obtain ⟨y, k, a, b, c, d⟩ := ih n h
      exact ⟨y, k, a, by omega, c, d⟩
    · refine ⟨Y, n - daysBeforeYear Y, hY, by omega, ?_, by omega⟩
      have := @daysBeforeYear_succ Y hY
      omega

theorem dayOfYear_decomp : ∀ (M : Nat), 1 ≤ M → M ≤ 13 → ∀ (y k : Nat),
    k < daysBeforeMonth y M →
    ∃ m j, 1 ≤ m ∧ m < M ∧ j < daysInMonth y m ∧ k = daysBeforeMonth y m + j := by
  intro M hM
  induction M, hM using Nat.le_induction with
  | base => intro _ y k hk; simp [daysBeforeMonth_one] at hk
  | succ M hM ih =>
    intro h13 y k hk
    rcases Nat.lt_or_ge k (daysBeforeMonth y M) with h | h
    · obtain ⟨m, j, a, b, c, d⟩ := ih (by omega) y k h
      exact ⟨m, j, a, by omega, c, d⟩
    · refine ⟨M, k - daysBeforeMonth y M, hM, by omega, ?_, by omega⟩
      have := @daysBeforeMonth_succ y M hM (by omega)
      omega

theorem fromOrdinal_eq {n : Nat} (hn : n < daysBeforeYear 10000) :
    ∃ y m d, fromOrdinal n = (y, m, d) ∧ 1 ≤ y ∧ y ≤ 9999 ∧ 1 ≤ m ∧ m ≤ 12 ∧
      1 ≤ d ∧ d ≤ daysInMonth y m ∧
      n = daysBeforeYear y + daysBeforeMonth y m + (d - 1) := by
  obtain ⟨y, k, hy1, hy2, hk, rfl⟩ := ord_decomp 10000 (by omega) n hn
  have h13 : k < daysBeforeMonth y 13 := by rw [daysBeforeMonth_13]; exact hk
  obtain ⟨m, j, hm1, hm2, hj, rfl⟩ := dayOfYear_decomp 13 (by omega) (by omega) y k h13
  refine ⟨y, m, j + 1, ?_, hy1, by omega, hm1, by omega, by omega, by omega, by omega⟩
  have hpy := ord2y_peel 9998 1 y (daysBeforeMonth y m + j) (by omega) hy1
    (by omega) (by omega)
  rw [daysBeforeYear_one] at hpy
  have he1 : daysBeforeYear y - 0 + (daysBeforeMonth y m + j)
      = daysBeforeYear y + (daysBeforeMonth y m + j) := by omega
  rw [he1] at hpy
  have hpm := findMonth_peel 11 y 1 m j (by omega) hm1 (by omega) hj (by omega)
  rw [daysBeforeMonth_one] at hpm
  have he2 : daysBeforeMonth y m - 0 + j = daysBeforeMonth y m + j := by omega
  rw [he2] at hpm
  unfold fromOrdinal
  simp only [hpy, hpm]

theorem dayOfYear_lt {y m d : Nat} (hm1 : 1 ≤ m) (hm : m ≤ 12) (hd1 : 1 ≤ d)
    (hd : d ≤ daysInMonth y m) :
    daysBeforeMonth y m + (d - 1) < daysInYear y := by
  have hstep : daysBeforeMonth y (m + 1) = daysBeforeMonth y m + daysInMonth y m :=
    daysBeforeMonth_succ hm1 hm
  have hmono : daysBeforeMonth y (m + 1) ≤ daysBeforeMonth y 13 :=
    daysBeforeMonth_mono (by omega) (by omega) (by omega)
  have h13 : daysBeforeMonth y 13 = daysInYear y := daysBeforeMonth_13 y
  omega

theorem fromOrdinal_toOrdinal {y m d : Nat} (h1 : 1 ≤ y) (h9 : y ≤ 9999)
    (hm1 : 1 ≤ m) (hm : m ≤ 12) (hd1 : 1 ≤ d) (hd : d ≤ daysInMonth y m) :
    fromOrdinal (daysBeforeYear y + daysBeforeMonth y m + (d - 1)) = (y, m, d) := by
  have hdoy : daysBeforeMonth y m + (d - 1) < daysInYear y :=
    dayOfYear_lt hm1 hm hd1 hd
  have hpy := ord2y_peel 9998 1 y (daysBeforeMonth y m + (d - 1)) (by omega) h1
    hdoy (by omega)
  rw [daysBeforeYear_one] at hpy
  have he1 : daysBeforeYear y - 0 + (daysBeforeMonth y m + (d - 1))
      = daysBeforeYear y + daysBeforeMonth y m + (d - 1) := by omega
  rw [he1] at hpy
  have hpm := findMonth_peel 11 y 1 m (d - 1) (by omega) hm1 hm (by omega) (by omega)
  rw [daysBeforeMonth_one] at hpm
  have he2 : daysBeforeMonth y m - 0 + (d - 1) = daysBeforeMonth y m + (d - 1) := by
    omega
  rw [he2] at hpm
  unfold fromOrdinal
  simp only [hpy, hpm, Prod.mk.injEq]
  exact ⟨trivial, trivial, by omega⟩

theorem toOrdinal_bound {dt : DateTime} (h : validDT dt) :
    toOrdinal dt < daysBeforeYear 10000 := by
  obtain ⟨h1, h9, hm1, hm, hd1, hd, _, _, _⟩ := h
  have hdoy := @dayOfYear_lt dt.year dt.month dt.day hm1 hm hd1 hd
  have hstep := @daysBeforeYear_succ dt.year h1
  have hmono : daysBeforeYear (dt.year + 1) ≤ daysBeforeYear 10000 :=
    daysBeforeYear_mono (by omega) (by omega)
  unfold toOrdinal
  omega

theorem toSeconds_lt_max {dt : DateTime} (h : validDT dt) :
    toSeconds dt < maxCivilSeconds := by
  have hb := toOrdinal_bound h
  obtain ⟨_, _, _, _, _, _, hh, hmi, hs⟩ := h
  unfold toSeconds maxCivilSeconds
  omega

theorem fromSeconds_toSeconds {dt : DateTime} (h : validDT dt) :
    fromSeconds (toSeconds dt) = dt := by
  obtain ⟨y, m, d, hh, mi, ss⟩ := dt
  unfold validDT at h
  dsimp only at h
  obtain ⟨h1, h9, hm1, hm, hd1, hd, hhh, hmm, hss⟩ := h
  have hshow : toSeconds ⟨y, m, d, hh, mi, ss⟩
      = (daysBeforeYear y + daysBeforeMonth y m + (d - 1)) * 86400
        + hh * 3600 + mi * 60 + ss := rfl
  rw [hshow]
  unfold fromSeconds
  have hdiv : ((daysBeforeYear y + daysBeforeMonth y m + (d - 1)) * 86400
      + hh * 3600 + mi * 60 + ss) / 86400
      = daysBeforeYear y + daysBeforeMonth y m + (d - 1) := by omega
  have hmod : ((daysBeforeYear y + daysBeforeMonth y m + (d - 1)) * 86400
      + hh * 3600 + mi * 60 + ss) % 86400 = hh * 3600 + mi * 60 + ss := by omega
  rw [hdiv, hmod, fromOrdinal_toOrdinal h1 h9 hm1 hm hd1 hd]
  simp only [DateTime.mk.injEq]
  exact ⟨trivial, trivial, trivial, by omega, by omega, by omega⟩

theorem fromSeconds_fields {n : Nat} (hn : n < maxCivilSeconds) :
    validDT (fromSeconds n) ∧ toSeconds (fromSeconds n) = n := by
  have hd : n / 86400 < daysBeforeYear 10000 := by
    unfold maxCivilSeconds at hn; omega
  obtain ⟨y, m, d, heq, h1, h9, hm1, hm, hd1, hdle, hsum⟩ := fromOrdinal_eq hd
  have hfs : fromSeconds n = ⟨y, m, d, n % 86400 / 3600, n % 86400 % 3600 / 60,
      n % 86400 % 60⟩ := by
    unfold fromSeconds
    rw [heq]
  rw [hfs]
  constructor
  · unfold validDT
    dsimp only
    exact ⟨h1, h9, hm1, hm, hd1, hdle, by omega, by omega, by omega⟩
  · have hts : toSeconds ⟨y, m, d, n % 86400 / 3600, n % 86400 % 3600 / 60,
        n % 86400 % 60⟩
        = (daysBeforeYear y + daysBeforeMonth y m + (d - 1)) * 86400
          + n % 86400 / 3600 * 3600 + n % 86400 % 3600 / 60 * 60
          + n % 86400 % 60 := rfl
    have hX : daysBeforeYear y + daysBeforeMonth y m + (d - 1) = n / 86400 :=
      hsum.symm
    rw [hts, hX]
    omega

theorem toSeconds_fromSeconds {n : Nat} (hn : n < maxCivilSeconds) :
    toSeconds (fromSeconds n) = n := (fromSeconds_fields hn).2

theorem fromSeconds_valid {n : Nat} (hn : n < maxCivilSeconds) :
    validDT (fromSeconds n) := (fromSeconds_fields hn).1

/- ## Parser lemmas -/

theorem charToDigit_le9 {c : Char} {a : Nat} (h : charToDigit c = some a) :
    a ≤ 9 := by
  unfold charToDigit at h
  split_ifs at h with hc
  injection h with h'
  omega

theorem charToDigit_digitChar {a : Nat} (h : a ≤ 9) :
    charToDigit (digitChar a) = some a := by
  interval_cases a <;> decide

theorem digitChar_not_ws {a : Nat} (h : a ≤ 9) :
    (digitChar a).isWhitespace = false := by
  interval_cases a <;> decide

theorem digitChar_ne_pct {a : Nat} (h : a ≤ 9) : digitChar a ≠ '%' := by
  interval_cases a <;> decide

theorem twoRes_inv {lo hi : Nat} {upd : Nat → RawFields → RawFields}
    {k : List Char → Option RawFields} {cs : List Char} {r : RawFields}
    (h : twoRes lo hi upd k cs = some r) :
    ∃ v rest r0, k rest = some r0 ∧ r = upd v r0 ∧ lo ≤ v ∧ v ≤ hi := by
  unfold twoRes at h
  split at h
  next c1 c2 rest =>
    split at h
    next a b hc1 hc2 =>
      split at h
      next hcond =>
        rcases Option.map_eq_some'.mp h with ⟨r0, hk, hupd⟩
        exact ⟨10 * a + b, rest, r0, hk, hupd.symm, hcond.1, hcond.2⟩
      next => cases h
    next => cases h
  next => cases h

theorem oneRes_inv {lo : Nat} {upd : Nat → RawFields → RawFields}
    {k : List Char → Option RawFields} {cs : List Char} {r : RawFields}
    (h : oneRes lo upd k cs = some r) :
    ∃ v rest r0, k rest = some r0 ∧ r = upd v r0 ∧ lo ≤ v ∧ v ≤ 9 := by
  unfold oneRes at h
  split at h
  next c1 rest =>
    split at h
    next a hc1 =>
      split at h
      next hlo =>
        rcases Option.map_eq_some'.mp h with ⟨r0, hk, hupd⟩
        exact ⟨a, rest, r0, hk, hupd.symm, hlo, charToDigit_le9 hc1⟩
      next => cases h
    next => cases h
  next => cases h

theorem num2_inv {lo hi : Nat} (h9 : 9 ≤ hi) {upd : Nat → RawFields → RawFields}
    {k : List Char → Option RawFields} {cs : List Char} {r : RawFields}
    (h : num2 lo hi upd k cs = some r) :
    ∃ v rest r0, k rest = some r0 ∧ r = upd v r0 ∧ lo ≤ v ∧ v ≤ hi := by
  unfold num2 at h
  split at h
  next r2 htwo =>
    injection h with h'
    subst h'
    exact twoRes_inv htwo
  next htwo =>
    rcases oneRes_inv h with ⟨v, rest, r0, hk, hupd, hlo, h9'⟩
    exact ⟨v, rest, r0, hk, hupd, hlo, by omega⟩

theorem num4_inv {upd : Nat → RawFields → RawFields}
    {k : List Char → Option RawFields} {cs : List Char} {r : RawFields}
    (h : num4 upd k cs = some r) :
    ∃ v rest r0, k rest = some r0 ∧ r = upd v r0 ∧ v ≤ 9999 := by
  unfold num4 at h
  split at h
  next c1 c2 c3 c4 rest =>
    split at h
    next a b c d hc1 hc2 hc3 hc4 =>
      rcases Option.map_eq_some'.mp h with ⟨r0, hk, hupd⟩
      have ha := charToDigit_le9 hc1
      have hb := charToDigit_le9 hc2
      have hc := charToDigit_le9 hc3
      have hd := charToDigit_le9 hc4
      exact ⟨1000 * a + 100 * b + 10 * c + d, rest, r0, hk, hupd.symm, by omega⟩
    next => cases h
  next => cases h

theorem dirsOf_nil : dirsOf [] = [] := rfl

theorem dirsOf_cons {c : Char} {fr : List Char} (hc : c ≠ '%') :
    dirsOf (c :: fr) = dirsOf fr := by
  rw [dirsOf.eq_def]
  dsimp only
  rw [if_neg hc]

theorem dirsOf_pct (c2 : Char) (fr2 : List Char) :
    dirsOf ('%' :: c2 :: fr2)
      = if c2 = '%' then dirsOf fr2 else c2 :: dirsOf fr2 := by
  simp only [dirsOf, if_true]

/-- Range and provenance facts about the fields captured by one match. -/
def rawOk (r : RawFields) (ds : List Char) : Prop :=
  (∀ v, r.Y = some v → v ≤ 9999 ∧ 'Y' ∈ ds) ∧
  (∀ v, r.m = some v → (1 ≤ v ∧ v ≤ 12) ∧ 'm' ∈ ds) ∧
  (∀ v, r.d = some v → (1 ≤ v ∧ v ≤ 31) ∧ 'd' ∈ ds) ∧
  (∀ v, r.H = some v → v ≤ 23 ∧ 'H' ∈ ds) ∧
  (∀ v, r.M = some v → v ≤ 59 ∧ 'M' ∈ ds) ∧
  (∀ v, r.S = some v → v ≤ 59 ∧ 'S' ∈ ds)

theorem rawOk_empty (ds : List Char) : rawOk {} ds := by
  refine ⟨?_, ?_, ?_, ?_, ?_, ?_⟩ <;> intro v hv <;> cases hv

theorem rawOk_mono {r : RawFields} {ds ds' : List Char} (hsub : ∀ c, c ∈ ds → c ∈ ds')
    (h : rawOk r ds) : rawOk r ds' := by
  obtain ⟨hY, hm, hd, hH, hM, hS⟩ := h
  exact ⟨fun v hv => ⟨(hY v hv).1, hsub _ (hY v hv).2⟩,
         fun v hv => ⟨(hm v hv).1, hsub _ (hm v hv).2⟩,
         fun v hv => ⟨(hd v hv).1, hsub _ (hd v hv).2⟩,
         fun v hv => ⟨(hH v hv).1, hsub _ (hH v hv).2⟩,
         fun v hv => ⟨(hM v hv).1, hsub _ (hM v hv).2⟩,
         fun v hv => ⟨(hS v hv).1, hsub _ (hS v hv).2⟩⟩

theorem rawOk_updY {r0 : RawFields} {ds : List Char} {v : Nat}
    (h : rawOk r0 ds) (hv : v ≤ 9999) :
    rawOk { r0 with Y := some v } ('Y' :: ds) := by
  obtain ⟨hY, hm, hd, hH, hM, hS⟩ := h
  refine ⟨?_, ?_, ?_, ?_, ?_, ?_⟩ <;> intro w hw <;> dsimp only at hw
  · injection hw with hw'
    exact ⟨hw' ▸ hv, List.mem_cons_self _ _⟩
  · exact ⟨(hm w hw).1, List.mem_cons_of_mem _ (hm w hw).2⟩
  · exact ⟨(hd w hw).1, List.mem_cons_of_mem _ (hd w hw).2⟩
  · exact ⟨(hH w hw).1, List.mem_cons_of_mem _ (hH w hw).2⟩
  · exact ⟨(hM w hw).1, List.mem_cons_of_mem _ (hM w hw).2⟩
  · exact ⟨(hS w hw).1, List.mem_cons_of_mem _ (hS w hw).2⟩

theorem rawOk_updm {r0 : RawFields} {ds : List Char} {v : Nat}
    (h : rawOk r0 ds) (h1 : 1 ≤ v) (h2 : v ≤ 12) :
    rawOk { r0 with m := some v } ('m' :: ds) := by
  obtain ⟨hY, hm, hd, hH, hM, hS⟩ := h
  refine ⟨?_, ?_, ?_, ?_, ?_, ?_⟩ <;> intro w hw <;> dsimp only at hw
  · exact ⟨(hY w hw).1, List.mem_cons_of_mem _ (hY w hw).2⟩
  · injection hw with hw'
    exact ⟨hw' ▸ ⟨h1, h2⟩, List.mem_cons_self _ _⟩
  · exact ⟨(hd w hw).1, List.mem_cons_of_mem _ (hd w hw).2⟩
  · exact ⟨(hH w hw).1, List.mem_cons_of_mem _ (hH w hw).2⟩
  · exact ⟨(hM w hw).1, List.mem_cons_of_mem _ (hM w hw).2⟩
  · exact ⟨(hS w hw).1, List.mem_cons_of_mem _ (hS w hw).2⟩

theorem rawOk_updd {r0 : RawFields} {ds : List Char} {v : Nat}
    (h : rawOk r0 ds) (h1 : 1 ≤ v) (h2 : v ≤ 31) :
    rawOk { r0 with d := some v } ('d' :: ds) := by
  obtain ⟨hY, hm, hd, hH, hM, hS⟩ := h
  refine ⟨?_, ?_, ?_, ?_, ?_, ?_⟩ <;> intro w hw <;> dsimp only at hw
  · exact ⟨(hY w hw).1, List.mem_cons_of_mem _ (hY w hw).2⟩
  · exact ⟨(hm w hw).1, List.mem_cons_of_mem _ (hm w hw).2⟩
  · injection hw with hw'
    exact ⟨hw' ▸ ⟨h1, h2⟩, List.mem_cons_self _ _⟩
  · exact ⟨(hH w hw).1, List.mem_cons_of_mem _ (hH w hw).2⟩
  · exact ⟨(hM w hw).1, List.mem_cons_of_mem _ (hM w hw).2⟩
  · exact ⟨(hS w hw).1, List.mem_cons_of_mem _ (hS w hw).2⟩

theorem rawOk_updH {r0 : RawFields} {ds : List Char} {v : Nat}
    (h : rawOk r0 ds) (hv : v ≤ 23) :
    rawOk { r0 with H := some v } ('H' :: ds) := by
  obtain ⟨hY, hm, hd, hH, hM, hS⟩ := h
  refine ⟨?_, ?_, ?_, ?_, ?_, ?_⟩ <;> intro w hw <;> dsimp only at hw
  · exact ⟨(hY w hw).1, List.mem_cons_of_mem _ (hY w hw).2⟩
  · exact ⟨(hm w hw).1, List.mem_cons_of_mem _ (hm w hw).2⟩
  · exact ⟨(hd w hw).1, List.mem_cons_of_mem _ (hd w hw).2⟩
  · injection hw with hw'
    exact ⟨hw' ▸ hv, List.mem_cons_self _ _⟩
  · exact ⟨(hM w hw).1, List.mem_cons_of_mem _ (hM w hw).2⟩
  · exact ⟨(hS w hw).1, List.mem_cons_of_mem _ (hS w hw).2⟩

theorem rawOk_updM {r0 : RawFields} {ds : List Char} {v : Nat}
    (h : rawOk r0 ds) (hv : v ≤ 59) :
    rawOk { r0 with M := some v } ('M' :: ds) := by
  obtain ⟨hY, hm, hd, hH, hM, hS⟩ := h
  refine ⟨?_, ?_, ?_, ?_, ?_, ?_⟩ <;> intro w hw <;> dsimp only at hw
  · exact ⟨(hY w hw).1, List.mem_cons_of_mem _ (hY w hw).2⟩
  · exact ⟨(hm w hw).1, List.mem_cons_of_mem _ (hm w hw).2⟩
  · exact ⟨(hd w hw).1, List.mem_cons_of_mem _ (hd w hw).2⟩
  · exact ⟨(hH w hw).1, List.mem_cons_of_mem _ (hH w hw).2⟩
  · injection hw with hw'
    exact ⟨hw' ▸ hv, List.mem_cons_self _ _⟩
  · exact ⟨(hS w hw).1, List.mem_cons_of_mem _ (hS w hw).2⟩

theorem rawOk_updS {r0 : RawFields} {ds : List Char} {v : Nat}
    (h : rawOk r0 ds) (hv : v ≤ 59) :
    rawOk { r0 with S := some v } ('S' :: ds) := by
  obtain ⟨hY, hm, hd, hH, hM, hS⟩ := h
  refine ⟨?_, ?_, ?_, ?_, ?_, ?_⟩ <;> intro w hw <;> dsimp only at hw
  · exact ⟨(hY w hw).1, List.mem_cons_of_mem _ (hY w hw).2⟩
  · exact ⟨(hm w hw).1, List.mem_cons_of_mem _ (hm w hw).2⟩
  · exact ⟨(hd w hw).1, List.mem_cons_of_mem _ (hd w hw).2⟩
  · exact ⟨(hH w hw).1, List.mem_cons_of_mem _ (hH w hw).2⟩
  · exact ⟨(hM w hw).1, List.mem_cons_of_mem _ (hM w hw).2⟩
  · injection hw with hw'
    exact ⟨hw' ▸ hv, List.mem_cons_self _ _⟩

theorem runF_nil_inv {aw : Bool} {cs : List Char} {r : RawFields}
    (h : runF aw [] cs = some r) : cs = [] ∧ r = {} := by
  cases cs with
  | nil =>
    injection h with h'
    exact ⟨rfl, h'.symm⟩
  | cons x xs => cases h

theorem runF_shape : ∀ (N : Nat) (fchars : List Char) (aw : Bool)
    (cs : List Char) (r : RawFields), fchars.length ≤ N →
    runF aw fchars cs = some r → rawOk r (dirsOf fchars) := by
  intro N
  induction N with
  | zero =>
    intro fchars aw cs r hlen h
    have hnil : fchars = [] := List.length_eq_zero.mp (by omega)
    subst hnil
    obtain ⟨-, rfl⟩ := runF_nil_inv h
    exact rawOk_empty _
  | succ N ih =>
    intro fchars aw cs r hlen h
    cases fchars with
    | nil =>
      obtain ⟨-, rfl⟩ := runF_nil_inv h
      exact rawOk_empty _
    | cons c fr =>
      simp only [List.length_cons] at hlen
      rw [runF.eq_def] at h
      dsimp only at h
      by_cases hc : c = '%'
      · subst hc
        rw [if_pos rfl] at h
        cases fr with
        | nil => cases h
        | cons c2 fr2 =>
          simp only [List.length_cons] at hlen
          have hfr2 : fr2.length ≤ N := by omega
          try dsimp only at h
          rw [dirsOf_pct]
          by_cases hY : c2 = 'Y'
          · subst hY
            rw [if_pos rfl] at h
            rw [if_neg (by decide)]
            rcases num4_inv h with ⟨v, rest, r0, hk, rfl, hv⟩
            exact rawOk_updY (ih fr2 false rest r0 hfr2 hk) hv
          · rw [if_neg hY] at h
            by_cases hm : c2 = 'm'
            · subst hm
              rw [if_pos rfl] at h
              rw [if_neg (by decide)]
              rcases num2_inv (by omega) h with ⟨v, rest, r0, hk, rfl, h1, h2⟩
              exact rawOk_updm (ih fr2 false rest r0 hfr2 hk) h1 h2
            · rw [if_neg hm] at h
              by_cases hd : c2 = 'd'
              · subst hd
                rw [if_pos rfl] at h
                rw [if_neg (by decide)]
                rcases num2_inv (by omega) h with ⟨v, rest, r0, hk, rfl, h1, h2⟩
                exact rawOk_updd (ih fr2 false rest r0 hfr2 hk) h1 h2
              · rw [if_neg hd] at h
                by_cases hH : c2 = 'H'
                · subst hH
                  rw [if_pos rfl] at h
                  rw [if_neg (by decide)]
                  rcases num2_inv (by omega) h with ⟨v, rest, r0, hk, rfl, h1, h2⟩
                  exact rawOk_updH (ih fr2 false rest r0 hfr2 hk) h2
                · rw [if_neg hH] at h
                  by_cases hM : c2 = 'M'
                  · subst hM
                    rw [if_pos rfl] at h
                    rw [if_neg (by decide)]
                    rcases num2_inv (by omega) h with ⟨v, rest, r0, hk, rfl, h1, h2⟩
                    exact rawOk_updM (ih fr2 false rest r0 hfr2 hk) h2
                  · rw [if_neg hM] at h
                    by_cases hS : c2 = 'S'
                    · subst hS
                      rw [if_pos rfl] at h
                      rw [if_neg (by decide)]
                      rcases num2_inv (by omega) h with ⟨v, rest, r0, hk, rfl, h1, h2⟩
                      exact rawOk_updS (ih fr2 false rest r0 hfr2 hk) h2
                    · rw [if_neg hS] at h
                      by_cases hp : c2 = '%'
                      · subst hp
                        rw [if_pos rfl] at h
                        rw [if_pos rfl]
                        cases cs with
                        | nil => cases h
                        | cons x xs =>
                          try dsimp only at h
                          by_cases hx : x = '%'
                          · rw [if_pos hx] at h
                            exact ih fr2 false xs r hfr2 h
                          · rw [if_neg hx] at h
                            cases h
                      · rw [if_neg hp] at h
                        cases h
      · rw [if_neg hc] at h
        rw [dirsOf_cons hc]
        have hfr : fr.length ≤ N := by omega
        by_cases hw : c.isWhitespace = true
        · rw [if_pos hw] at h
          cases aw with
          | true =>
            rw [if_pos rfl] at h
            exact ih fr true cs r hfr h
          | false =>
            rw [if_neg (by decide)] at h
            try dsimp only at h
            by_cases hlen2 : (cs.dropWhile Char.isWhitespace).length = cs.length
            · rw [if_pos hlen2] at h
              cases h
            · rw [if_neg hlen2] at h
              exact ih fr true _ r hfr h
        · rw [if_neg hw] at h
          cases cs with
          | nil => cases h
          | cons x xs =>
            try dsimp only at h
            by_cases hx : x = c
            · rw [if_pos hx] at h
              exact ih fr false xs r hfr h
            · rw [if_neg hx] at h
              cases h

theorem mkDateTime_inv {r : RawFields} {v : DateTime} (h : mkDateTime r = .ok v) :
    v = ⟨r.Y.getD 1900, r.m.getD 1, r.d.getD 1, r.H.getD 0, r.M.getD 0,
         r.S.getD 0⟩ ∧
    1 ≤ r.Y.getD 1900 ∧ 1 ≤ r.m.getD 1 ∧ r.m.getD 1 ≤ 12 ∧ 1 ≤ r.d.getD 1 ∧
    r.d.getD 1 ≤ daysInMonth (r.Y.getD 1900) (r.m.getD 1) ∧ r.H.getD 0 ≤ 23 ∧
    r.M.getD 0 ≤ 59 ∧ r.S.getD 0 ≤ 59 := by
  unfold mkDateTime at h
  dsimp only at h
  split_ifs at h with hcond
  injection h with h'
  exact ⟨h'.symm, hcond.1, hcond.2.1, hcond.2.2.1, hcond.2.2.2.1,
    hcond.2.2.2.2.1, hcond.2.2.2.2.2.1, hcond.2.2.2.2.2.2.1,
    hcond.2.2.2.2.2.2.2⟩

theorem strptime_inv {s f : String} {v : DateTime} (h : strptime s f = .ok v) :
    ∃ r, fmtOk f.data = true ∧ runF false f.data s.data = some r ∧
      mkDateTime r = .ok v := by
  unfold strptime at h
  split_ifs at h with hfmt
  cases hr : runF false f.data s.data with
  | none => rw [hr] at h; cases h
  | some r =>
    rw [hr] at h
    exact ⟨r, hfmt, rfl, h⟩

theorem strptime_valid {s f : String} {v : DateTime} (h : strptime s f = .ok v) :
    validDT v := by
  obtain ⟨r, hfmt, hrun, hmk⟩ := strptime_inv h
  have hshape := runF_shape f.data.length f.data false s.data r (Nat.le_refl _) hrun
  obtain ⟨hveq, h1, hm1, hm2, hd1, hdm, hH2, hM2, hS2⟩ := mkDateTime_inv hmk
  subst hveq
  obtain ⟨hY, hm, hd, hH, hM, hS⟩ := hshape
  have hy9 : r.Y.getD 1900 ≤ 9999 := by
    cases hry : r.Y with
    | none => simp [hry, Option.getD]
    | some w => simpa [hry, Option.getD] using (hY w hry).1
  have hh23 : r.H.getD 0 ≤ 23 := hH2
  unfold validDT
  exact ⟨h1, hy9, hm1, hm2, hd1, hdm, hH2, hM2, hS2⟩

theorem num2_pad2 {lo hi v : Nat} {upd : Nat → RawFields → RawFields}
    {k : List Char → Option RawFields} {rest : List Char} {r0 : RawFields}
    (hk : k rest = some r0) (hlo : lo ≤ v) (hhi : v ≤ hi) (hv : v ≤ 99) :
    num2 lo hi upd k (pad2 v ++ rest) = some (upd v r0) := by
  have h1 : charToDigit (digitChar (v / 10)) = some (v / 10) :=
    charToDigit_digitChar (by omega)
  have h2 : charToDigit (digitChar (v % 10)) = some (v % 10) :=
    charToDigit_digitChar (by omega)
  have hrec : 10 * (v / 10) + v % 10 = v := by omega
  have htwo : twoRes lo hi upd k (pad2 v ++ rest) = some (upd v r0) := by
    unfold pad2
    simp only [List.cons_append, List.nil_append]
    unfold twoRes
    dsimp only
    rw [h1, h2]
    dsimp only
    rw [hrec, if_pos ⟨hlo, hhi⟩, hk]
    rfl
  unfold num2
  rw [htwo]

theorem num4_pad4 {v : Nat} {upd : Nat → RawFields → RawFields}
    {k : List Char → Option RawFields} {rest : List Char} {r0 : RawFields}
    (hk : k rest = some r0) (hv : v ≤ 9999) :
    num4 upd k (pad4 v ++ rest) = some (upd v r0) := by
  have h1 : charToDigit (digitChar (v / 1000)) = some (v / 1000) :=
    charToDigit_digitChar (by omega)
  have h2 : charToDigit (digitChar (v / 100 % 10)) = some (v / 100 % 10) :=
    charToDigit_digitChar (by omega)
  have h3 : charToDigit (digitChar (v / 10 % 10)) = some (v / 10 % 10) :=
    charToDigit_digitChar (by omega)
  have h4 : charToDigit (digitChar (v % 10)) = some (v % 10) :=
    charToDigit_digitChar (by omega)
  have hrec : 1000 * (v / 1000) + 100 * (v / 100 % 10) + 10 * (v / 10 % 10)
      + v % 10 = v := by omega
  unfold pad4
  simp only [List.cons_append, List.nil_append]
  unfold num4
  dsimp only
  rw [h1, h2, h3, h4]
  dsimp only
  rw [hrec, hk]
  rfl

theorem goodDirs_cons {c : Char} {fr : List Char} (hc : c ≠ '%') :
    goodDirs (c :: fr) = goodDirs fr := by
  rw [goodDirs.eq_def]
  dsimp only
  rw [if_neg hc]

theorem goodDirs_pct (c2 : Char) (fr2 : List Char) :
    goodDirs ('%' :: c2 :: fr2)
      = ((c2 == '%' || knownDirs.contains c2) && goodDirs fr2) := by
  rw [goodDirs.eq_def]
  dsimp only
  rw [if_pos rfl]

theorem goodDirs_single_pct : goodDirs ['%'] = false := by decide

/-- The raw fields that parsing a canonical rendering of `v` produces:
`v`'s value at each directive present, nothing elsewhere. -/
def projRaw (v : DateTime) (ds : List Char) : RawFields :=
  { Y := if 'Y' ∈ ds then some v.year else none
    m := if 'm' ∈ ds then some v.month else none
    d := if 'd' ∈ ds then some v.day else none
    H := if 'H' ∈ ds then some v.hour else none
    M := if 'M' ∈ ds then some v.minute else none
    S := if 'S' ∈ ds then some v.second else none }

theorem projRaw_nil (v : DateTime) : projRaw v [] = {} := by
  simp [projRaw]

theorem renderF_nil (v : DateTime) : renderF v [] = [] := rfl

theorem renderF_cons {c : Char} {fr : List Char} (hc : c ≠ '%') (v : DateTime) :
    renderF v (c :: fr) = c :: renderF v fr := by
  rw [renderF.eq_def]
  dsimp only
  rw [if_neg hc]

theorem renderF_pct (v : DateTime) (c2 : Char) (fr2 : List Char) :
    renderF v ('%' :: c2 :: fr2) = renderDir v c2 ++ renderF v fr2 := by
  rw [renderF.eq_def]
  dsimp only
  rw [if_pos rfl]

theorem renderDir_Y (v : DateTime) (hy : 1000 ≤ v.year) :
    renderDir v 'Y' = pad4 v.year := by
  unfold renderDir renderY
  rw [if_pos rfl, if_neg (by omega)]

theorem renderDir_m (v : DateTime) : renderDir v 'm' = pad2 v.month := by
  unfold renderDir
  rw [if_neg (by decide), if_pos rfl]

theorem renderDir_d (v : DateTime) : renderDir v 'd' = pad2 v.day := by
  unfold renderDir
  rw [if_neg (by decide), if_neg (by decide), if_pos rfl]

theorem renderDir_H (v : DateTime) : renderDir v 'H' = pad2 v.hour := by
  unfold renderDir
  rw [if_neg (by decide), if_neg (by decide), if_neg (by decide), if_pos rfl]

theorem renderDir_M (v : DateTime) : renderDir v 'M' = pad2 v.minute := by
  unfold renderDir
  rw [if_neg (by decide), if_neg (by decide), if_neg (by decide),
    if_neg (by decide), if_pos rfl]

theorem renderDir_S (v : DateTime) : renderDir v 'S' = pad2 v.second := by
  unfold renderDir
  rw [if_neg (by decide), if_neg (by decide), if_neg (by decide),
    if_neg (by decide), if_neg (by decide), if_pos rfl]

theorem renderDir_pct (v : DateTime) : renderDir v '%' = ['%'] := by
  unfold renderDir
  rw [if_neg (by decide), if_neg (by decide), if_neg (by decide),
    if_neg (by decide), if_neg (by decide), if_neg (by decide),
    if_neg (by decide), if_neg (by decide), if_neg (by decide),
    if_neg (by decide), if_pos rfl]

theorem renderDir_head {v : DateTime} {c2 : Char}
    (h : (c2 == '%' || knownDirs.contains c2) = true) (hval : validDT v)
    (hy : 1000 ≤ v.year) :
    ∃ a tail, renderDir v c2 = a :: tail ∧ a.isWhitespace = false := by
  have h9 : v.year ≤ 9999 := hval.2.1
  have hmo : v.month ≤ 12 := hval.2.2.2.1
  have hda : v.day ≤ daysInMonth v.year v.month := hval.2.2.2.2.2.1
  have hda31 : v.day ≤ 31 := by
    have : daysInMonth v.year v.month ≤ 31 := by
      unfold daysInMonth
      split_ifs <;> omega
    omega
  have hho : v.hour ≤ 23 := hval.2.2.2.2.2.2.1
  have hmi : v.minute ≤ 59 := hval.2.2.2.2.2.2.2.1
  have hse : v.second ≤ 59 := hval.2.2.2.2.2.2.2.2
  have hcases : c2 = '%' ∨ c2 = 'Y' ∨ c2 = 'm' ∨ c2 = 'd' ∨ c2 = 'H' ∨
      c2 = 'M' ∨ c2 = 'S' := by
    simp only [Bool.or_eq_true, beq_iff_eq, knownDirs, List.contains,
      List.elem_iff, List.mem_cons, List.mem_singleton,
      List.not_mem_nil, or_false] at h
    tauto
  rcases hcases with rfl | rfl | rfl | rfl | rfl | rfl | rfl
  · exact ⟨'%', [], renderDir_pct v, by decide⟩
  · exact ⟨_, _, renderDir_Y v hy, digitChar_not_ws (by omega)⟩
  · exact ⟨_, _, renderDir_m v, digitChar_not_ws (by omega)⟩
  · exact ⟨_, _, renderDir_d v, digitChar_not_ws (by omega)⟩
  · exact ⟨_, _, renderDir_H v, digitChar_not_ws (by omega)⟩
  · exact ⟨_, _, renderDir_M v, digitChar_not_ws (by omega)⟩
  · exact ⟨_, _, renderDir_S v, digitChar_not_ws (by omega)⟩

theorem dropWhile_renderF {v : DateTime} : ∀ (N : Nat) (fchars : List Char),
    fchars.length ≤ N → goodDirs fchars = true → validDT v → 1000 ≤ v.year →
    (renderF v fchars).dropWhile Char.isWhitespace
      = renderF v (fchars.dropWhile Char.isWhitespace) := by
  intro N
  induction N with
  | zero =>
    intro fchars hlen hgood hval hy
    have : fchars = [] := List.length_eq_zero.mp (by omega)
    subst this
    rfl
  | succ N ih =>
    intro fchars hlen hgood hval hy
    cases fchars with
    | nil => rfl
    | cons c fr =>
      simp only [List.length_cons] at hlen
      by_cases hc : c = '%'
      · subst hc
        cases fr with
        | nil => rw [goodDirs_single_pct] at hgood; cases hgood
        | cons c2 fr2 =>
          rw [goodDirs_pct] at hgood
          obtain ⟨hdir, -⟩ : (c2 == '%' || knownDirs.contains c2) = true ∧
              goodDirs fr2 = true := by simpa using hgood
          obtain ⟨a, tail, hra, haw⟩ := renderDir_head hdir hval hy
          rw [renderF_pct, hra]
          simp only [List.cons_append, List.dropWhile_cons, haw,
            Bool.false_eq_true, if_false,
            show ('%' : Char).isWhitespace = false by decide]
          rw [renderF_pct, hra]
          rfl
      · rw [renderF_cons hc]
        rw [List.dropWhile_cons, List.dropWhile_cons]
        by_cases hw : c.isWhitespace = true
        · simp only [hw, if_true]
          exact ih fr (by omega) (by rwa [goodDirs_cons hc] at hgood) hval hy
        · simp only [eq_false_of_ne_true hw, Bool.false_eq_true, if_false]
          rw [renderF_cons hc]

theorem runF_aw_irrel {c : Char} {fr cs : List Char}
    (h1 : c = '%' ∨ c.isWhitespace = false) (aw : Bool) :
    runF aw (c :: fr) cs = runF false (c :: fr) cs := by
  rw [runF.eq_def]
  conv_rhs => rw [runF.eq_def]
  dsimp only
  rcases h1 with rfl | hww
  · rw [if_pos rfl, if_pos rfl]
  · by_cases hc : c = '%'
    · rw [if_pos hc, if_pos hc]
    · rw [if_neg hc, if_neg hc, if_neg (by simp [hww]), if_neg (by simp [hww])]

theorem projRaw_updY (v : DateTime) (ds : List Char) :
    { projRaw v ds with Y := some v.year } = projRaw v ('Y' :: ds) := by
  simp [projRaw, List.mem_cons]

theorem projRaw_updm (v : DateTime) (ds : List Char) :
    { projRaw v ds with m := some v.month } = projRaw v ('m' :: ds) := by
  simp [projRaw, List.mem_cons]

theorem projRaw_updd (v : DateTime) (ds : List Char) :
    { projRaw v ds with d := some v.day } = projRaw v ('d' :: ds) := by
  simp [projRaw, List.mem_cons]

theorem projRaw_updH (v : DateTime) (ds : List Char) :
    { projRaw v ds with H := some v.hour } = projRaw v ('H' :: ds) := by
  simp [projRaw, List.mem_cons]

theorem projRaw_updM (v : DateTime) (ds : List Char) :
    { projRaw v ds with M := some v.minute } = projRaw v ('M' :: ds) := by
  simp [projRaw, List.mem_cons]

theorem projRaw_updS (v : DateTime) (ds : List Char) :
    { projRaw v ds with S := some v.second } = projRaw v ('S' :: ds) := by
  simp [projRaw, List.mem_cons]

theorem validDT_day31 {v : DateTime} (hval : validDT v) : v.day ≤ 31 := by
  have hda : v.day ≤ daysInMonth v.year v.month := hval.2.2.2.2.2.1
  have : daysInMonth v.year v.month ≤ 31 := by
    unfold daysInMonth
    split_ifs <;> omega
  omega

theorem dropWhile_length_le (p : Char → Bool) :
    ∀ l : List Char, (l.dropWhile p).length ≤ l.length := by
  intro l
  induction l with
  | nil => simp
  | cons a l ih =>
    rw [List.dropWhile_cons]
    split_ifs
    · simp only [List.length_cons]
      omega
    · simp

theorem runF_render {v : DateTime} (hval : validDT v) (hy : 1000 ≤ v.year) :
    ∀ (N : Nat) (fchars : List Char), fchars.length ≤ N →
    goodDirs fchars = true →
    runF false fchars (renderF v fchars) = some (projRaw v (dirsOf fchars)) ∧
    runF true fchars (renderF v (fchars.dropWhile Char.isWhitespace))
      = some (projRaw v (dirsOf fchars)) := by
  have hv1 : 1 ≤ v.year := hval.1
  have hv9 : v.year ≤ 9999 := hval.2.1
  have hvm1 : 1 ≤ v.month := hval.2.2.1
  have hvm12 : v.month ≤ 12 := hval.2.2.2.1
  have hvd1 : 1 ≤ v.day := hval.2.2.2.2.1
  have hvd31 : v.day ≤ 31 := validDT_day31 hval
  have hvh : v.hour ≤ 23 := hval.2.2.2.2.2.2.1
  have hvmi : v.minute ≤ 59 := hval.2.2.2.2.2.2.2.1
  have hvs : v.second ≤ 59 := hval.2.2.2.2.2.2.2.2
  intro N
  induction N with
  | zero =>
    intro fchars hlen hgood
    have : fchars = [] := List.length_eq_zero.mp (by omega)
    subst this
    rw [dirsOf_nil, projRaw_nil]
    exact ⟨rfl, rfl⟩
  | succ N ih =>
    intro fchars hlen hgood
    cases fchars with
    | nil =>
      rw [dirsOf_nil, projRaw_nil]
      exact ⟨rfl, rfl⟩
    | cons c fr =>
      simp only [List.length_cons] at hlen
      by_cases hc : c = '%'
      · subst hc
        cases fr with
        | nil => rw [goodDirs_single_pct] at hgood; cases hgood
        | cons c2 fr2 =>
          simp only [List.length_cons] at hlen
          rw [goodDirs_pct] at hgood
          obtain ⟨hdir, hgood2⟩ : (c2 == '%' || knownDirs.contains c2) = true ∧
              goodDirs fr2 = true := by simpa using hgood
          have hfr2 : fr2.length ≤ N := by omega
          have ihS := (ih fr2 hfr2 hgood2).1
          have hS : runF false ('%' :: c2 :: fr2) (renderF v ('%' :: c2 :: fr2))
              = some (projRaw v (dirsOf ('%' :: c2 :: fr2))) := by
            rw [renderF_pct]
            rw [runF.eq_def]
            try dsimp only
            rw [if_pos rfl]
            by_cases h2 : c2 = 'Y'
            · subst h2
              rw [if_pos rfl, renderDir_Y v hy, num4_pad4 ihS hv9,
                dirsOf_pct, if_neg (by decide), projRaw_updY]
            · rw [if_neg h2]
              by_cases h3 : c2 = 'm'
              · subst h3
                rw [if_pos rfl, renderDir_m v,
                  num2_pad2 ihS hvm1 hvm12 (by omega),
                  dirsOf_pct, if_neg (by decide), projRaw_updm]
              · rw [if_neg h3]
                by_cases h4 : c2 = 'd'
                · subst h4
                  rw [if_pos rfl, renderDir_d v,
                    num2_pad2 ihS hvd1 hvd31 (by omega),
                    dirsOf_pct, if_neg (by decide), projRaw_updd]
                · rw [if_neg h4]
                  by_cases h5 : c2 = 'H'
                  · subst h5
                    rw [if_pos rfl, renderDir_H v,
                      num2_pad2 ihS (Nat.zero_le _) hvh (by omega),
                      dirsOf_pct, if_neg (by decide), projRaw_updH]
                  · rw [if_neg h5]
                    by_cases h6 : c2 = 'M'
                    · subst h6
                      rw [if_pos rfl, renderDir_M v,
                        num2_pad2 ihS (Nat.zero_le _) hvmi (by omega),
                        dirsOf_pct, if_neg (by decide), projRaw_updM]
                    · rw [if_neg h6]
                      by_cases h7 : c2 = 'S'
                      · subst h7
                        rw [if_pos rfl, renderDir_S v,
                          num2_pad2 ihS (Nat.zero_le _) hvs (by omega),
                          dirsOf_pct, if_neg (by decide), projRaw_updS]
                      · rw [if_neg h7]
                        have h8 : c2 = '%' := by
                          have hd2 : c2 = '%' ∨ c2 ∈ knownDirs := by
                            simpa using hdir
                          rcases hd2 with h' | h'
                          · exact h'
                          · simp only [knownDirs, List.mem_cons,
                              List.mem_singleton, List.not_mem_nil,
                              or_false] at h'
                            tauto
                        subst h8
                        rw [if_pos rfl, renderDir_pct]
                        simp only [List.cons_append, List.nil_append]
                        try dsimp only
                        rw [if_true, ihS, dirsOf_pct, if_pos rfl]
          refine ⟨hS, ?_⟩
          have hdw : ('%' :: c2 :: fr2).dropWhile Char.isWhitespace
              = '%' :: c2 :: fr2 := by
            rw [List.dropWhile_cons]
            simp [show ('%' : Char).isWhitespace = false by decide]
          rw [hdw, runF_aw_irrel (Or.inl rfl)]
          exact hS
      · have hgfr : goodDirs fr = true := by rwa [goodDirs_cons hc] at hgood
        have hfr : fr.length ≤ N := by omega
        rw [dirsOf_cons hc]
        by_cases hw : c.isWhitespace = true
        · have hdwf := @dropWhile_renderF v N fr hfr hgfr hval hy
          constructor
          · rw [renderF_cons hc, runF.eq_def]
            try dsimp only
            rw [if_neg hc, if_pos hw, if_neg (by decide)]
            try dsimp only
            rw [List.dropWhile_cons]
            simp only [hw, if_true]
            have hne : ¬ ((renderF v fr).dropWhile Char.isWhitespace).length
                = (c :: renderF v fr).length := by
              have h1 := dropWhile_length_le Char.isWhitespace (renderF v fr)
              simp only [List.length_cons]
              omega
            rw [if_neg hne, hdwf]
            exact (ih fr hfr hgfr).2
          · have hdw2 : (c :: fr).dropWhile Char.isWhitespace
                = fr.dropWhile Char.isWhitespace := by
              rw [List.dropWhile_cons]
              simp only [hw, if_true]
            rw [hdw2, runF.eq_def]
            try dsimp only
            rw [if_neg hc, if_pos hw, if_pos rfl]
            exact (ih fr hfr hgfr).2
        · constructor
          · rw [renderF_cons hc, runF.eq_def]
            try dsimp only
            rw [if_neg hc, if_neg hw]
            try dsimp only
            rw [if_pos rfl]
            exact (ih fr hfr hgfr).1
          · have hdw2 : (c :: fr).dropWhile Char.isWhitespace = c :: fr := by
              rw [List.dropWhile_cons]
              simp only [eq_false_of_ne_true hw, Bool.false_eq_true, if_false]
            rw [hdw2, runF_aw_irrel (Or.inr (eq_false_of_ne_true hw)),
              renderF_cons hc, runF.eq_def]
            try dsimp only
            rw [if_neg hc, if_neg hw]
            try dsimp only
            rw [if_pos rfl]
            exact (ih fr hfr hgfr).1

theorem mkDateTime_projRaw {v : DateTime} {ds : List Char} (hval : validDT v)
    (hYd : 'Y' ∉ ds → v.year = 1900) (hmd : 'm' ∉ ds → v.month = 1)
    (hdd : 'd' ∉ ds → v.day = 1) (hHd : 'H' ∉ ds → v.hour = 0)
    (hMd : 'M' ∉ ds → v.minute = 0) (hSd : 'S' ∉ ds → v.second = 0) :
    mkDateTime (projRaw v ds) = .ok v := by
  have gY : (projRaw v ds).Y.getD 1900 = v.year := by
    by_cases h : 'Y' ∈ ds
    · simp [projRaw, h]
    · simp [projRaw, h, hYd h]
  have gm : (projRaw v ds).m.getD 1 = v.month := by
    by_cases h : 'm' ∈ ds
    · simp [projRaw, h]
    · simp [projRaw, h, hmd h]
  have gd : (projRaw v ds).d.getD 1 = v.day := by
    by_cases h : 'd' ∈ ds
    · simp [projRaw, h]
    · simp [projRaw, h, hdd h]
  have gH : (projRaw v ds).H.getD 0 = v.hour := by
    by_cases h : 'H' ∈ ds
    · simp [projRaw, h]
    · simp [projRaw, h, hHd h]
  have gM : (projRaw v ds).M.getD 0 = v.minute := by
    by_cases h : 'M' ∈ ds
    · simp [projRaw, h]
    · simp [projRaw, h, hMd h]
  have gS : (projRaw v ds).S.getD 0 = v.second := by
    by_cases h : 'S' ∈ ds
    · simp [projRaw, h]
    · simp [projRaw, h, hSd h]
  unfold mkDateTime
  try dsimp only
  rw [gY, gm, gd, gH, gM, gS]
  rw [if_pos ⟨hval.1, hval.2.2.1, hval.2.2.2.1, hval.2.2.2.2.1,
    hval.2.2.2.2.2.1, hval.2.2.2.2.2.2.1, hval.2.2.2.2.2.2.2.1,
    hval.2.2.2.2.2.2.2.2⟩]

/-- Canonical round trip: re-parsing the rendering of a value obtained from a
successful parse yields the value back (four-digit years: `%Y` renders
unpadded below year 1000 and then no longer matches its own four-digit
pattern). -/
theorem strptime_strftime {s f : String} {v : DateTime}
    (h : strptime s f = .ok v) (hy : 1000 ≤ v.year) :
    strptime (strftime v f) f = .ok v := by
  obtain ⟨r, hfmt, hrun, hmk⟩ := strptime_inv h
  have hval := strptime_valid h
  have hgood : goodDirs f.data = true := by
    unfold fmtOk at hfmt
    exact ((by simpa using hfmt : goodDirs f.data = true ∧
      (dirsOf f.data).Nodup)).1
  have hrender := (runF_render hval hy f.data.length f.data (Nat.le_refl _)
    hgood).1
  have hshape := runF_shape f.data.length f.data false s.data r (Nat.le_refl _)
    hrun
  obtain ⟨hveq, -⟩ := mkDateTime_inv hmk
  obtain ⟨shY, shm, shd, shH, shM, shS⟩ := hshape
  have hYd : 'Y' ∉ dirsOf f.data → v.year = 1900 := by
    intro hnot
    cases hrY : r.Y with
    | none => rw [hveq]; simp [hrY, Option.getD]
    | some w => exact absurd (shY w hrY).2 hnot
  have hmd : 'm' ∉ dirsOf f.data → v.month = 1 := by
    intro hnot
    cases hrm : r.m with
    | none => rw [hveq]; simp [hrm, Option.getD]
    | some w => exact absurd (shm w hrm).2 hnot
  have hdd : 'd' ∉ dirsOf f.data → v.day = 1 := by
    intro hnot
    cases hrd : r.d with
    | none => rw [hveq]; simp [hrd, Option.getD]
    | some w => exact absurd (shd w hrd).2 hnot
  have hHd : 'H' ∉ dirsOf f.data → v.hour = 0 := by
    intro hnot
    cases hrH : r.H with
    | none => rw [hveq]; simp [hrH, Option.getD]
    | some w => exact absurd (shH w hrH).2 hnot
  have hMd : 'M' ∉ dirsOf f.data → v.minute = 0 := by
    intro hnot
    cases hrM : r.M with
    | none => rw [hveq]; simp [hrM, Option.getD]
    | some w => exact absurd (shM w hrM).2 hnot
  have hSd : 'S' ∉ dirsOf f.data → v.second = 0 := by
    intro hnot
    cases hrS : r.S with
    | none => rw [hveq]; simp [hrS, Option.getD]
    | some w => exact absurd (shS w hrS).2 hnot
  unfold strptime
  rw [if_pos hfmt]
  have hdata : (strftime v f).data = renderF v f.data := rfl
  rw [hdata, hrender]
  exact mkDateTime_projRaw hval hYd hmd hdd hHd hMd hSd

theorem runF_pctY (aw : Bool) (fr2 cs : List Char) :
    runF aw ('%' :: 'Y' :: fr2) cs
      = num4 (fun v r => { r with Y := some v }) (runF false fr2) cs := by
  rw [runF.eq_def]
  try dsimp only
  rw [if_pos rfl, if_pos rfl]

theorem runF_pctm (aw : Bool) (fr2 cs : List Char) :
    runF aw ('%' :: 'm' :: fr2) cs
      = num2 1 12 (fun v r => { r with m := some v }) (runF false fr2) cs := by
  rw [runF.eq_def]
  try dsimp only
  rw [if_pos rfl, if_neg (by decide), if_pos rfl]

theorem runF_pctd (aw : Bool) (fr2 cs : List Char) :
    runF aw ('%' :: 'd' :: fr2) cs
      = num2 1 31 (fun v r => { r with d := some v }) (runF false fr2) cs := by
  rw [runF.eq_def]
  try dsimp only
  rw [if_pos rfl, if_neg (by decide), if_neg (by decide), if_pos rfl]

theorem runF_pctH (aw : Bool) (fr2 cs : List Char) :
    runF aw ('%' :: 'H' :: fr2) cs
      = num2 0 23 (fun v r => { r with H := some v }) (runF false fr2) cs := by
  rw [runF.eq_def]
  try dsimp only
  rw [if_pos rfl, if_neg (by decide), if_neg (by decide), if_neg (by decide),
    if_pos rfl]

theorem runF_pctM (aw : Bool) (fr2 cs : List Char) :
    runF aw ('%' :: 'M' :: fr2) cs
      = num2 0 59 (fun v r => { r with M := some v }) (runF false fr2) cs := by
  rw [runF.eq_def]
  try dsimp only
  rw [if_pos rfl, if_neg (by decide), if_neg (by decide), if_neg (by decide),
    if_neg (by decide), if_pos rfl]

theorem runF_pctS (aw : Bool) (fr2 cs : List Char) :
    runF aw ('%' :: 'S' :: fr2) cs
      = num2 0 59 (fun v r => { r with S := some v }) (runF false fr2) cs := by
  rw [runF.eq_def]
  try dsimp only
  rw [if_pos rfl, if_neg (by decide), if_neg (by decide), if_neg (by decide),
    if_neg (by decide), if_neg (by decide), if_pos rfl]

theorem runF_lit {c : Char} (hc : c ≠ '%') (hw : c.isWhitespace = false)
    (aw : Bool) (fr xs : List Char) :
    runF aw (c :: fr) (c :: xs) = runF false fr xs := by
  rw [runF.eq_def]
  try dsimp only
  rw [if_neg hc, if_neg (by simp [hw])]
  try dsimp only
  rw [if_pos rfl]

/-- `isoformat` re-parses to the same value under the ISO format, for any
valid value: the year is always rendered four digits there. -/
theorem strptime_isoformat {v : DateTime} (hval : validDT v) :
    strptime (isoformat v) "%Y-%m-%dT%H:%M:%S" = .ok v := by
  have hv9 : v.year ≤ 9999 := hval.2.1
  have hvm1 : 1 ≤ v.month := hval.2.2.1
  have hvm12 : v.month ≤ 12 := hval.2.2.2.1
  have hvd1 : 1 ≤ v.day := hval.2.2.2.2.1
  have hvd31 : v.day ≤ 31 := validDT_day31 hval
  have hvh : v.hour ≤ 23 := hval.2.2.2.2.2.2.1
  have hvmi : v.minute ≤ 59 := hval.2.2.2.2.2.2.2.1
  have hvs : v.second ≤ 59 := hval.2.2.2.2.2.2.2.2
  have s8 : runF false ([] : List Char) ([] : List Char)
      = some ({} : RawFields) := rfl
  have s7 : runF false ['%', 'S'] (pad2 v.second ++ [])
      = some ({ S := some v.second } : RawFields) := by
    rw [runF_pctS, num2_pad2 s8 (Nat.zero_le _) hvs (by omega)]
  have s6 : runF false (':' :: '%' :: 'S' :: [])
      (':' :: (pad2 v.second ++ []))
      = some ({ S := some v.second } : RawFields) := by
    rw [runF_lit (by decide) (by decide)]
    exact s7
  have s5 : runF false ('%' :: 'M' :: ':' :: '%' :: 'S' :: [])
      (pad2 v.minute ++ ':' :: (pad2 v.second ++ []))
      = some ({ M := some v.minute, S := some v.second } : RawFields) := by
    rw [runF_pctM, num2_pad2 s6 (Nat.zero_le _) hvmi (by omega)]
  have s4 : runF false (':' :: '%' :: 'M' :: ':' :: '%' :: 'S' :: [])
      (':' :: (pad2 v.minute ++ ':' :: (pad2 v.second ++ [])))
      = some ({ M := some v.minute, S := some v.second } : RawFields) := by
    rw [runF_lit (by decide) (by decide)]
    exact s5
  have s3 : runF false ('%' :: 'H' :: ':' :: '%' :: 'M' :: ':' :: '%' :: 'S' :: [])
      (pad2 v.hour ++ ':' :: (pad2 v.minute ++ ':' :: (pad2 v.second ++ [])))
      = some ({ H := some v.hour, M := some v.minute,
                S := some v.second } : RawFields) := by
    rw [runF_pctH, num2_pad2 s4 (Nat.zero_le _) hvh (by omega)]
  have s2T : runF false
      ('T' :: '%' :: 'H' :: ':' :: '%' :: 'M' :: ':' :: '%' :: 'S' :: [])
      ('T' :: (pad2 v.hour ++ ':' :: (pad2 v.minute ++ ':' :: (pad2 v.second ++ []))))
      = some ({ H := some v.hour, M := some v.minute,
                S := some v.second } : RawFields) := by
    rw [runF_lit (by decide) (by decide)]
    exact s3
  have s2 : runF false
      ('%' :: 'd' :: 'T' :: '%' :: 'H' :: ':' :: '%' :: 'M' :: ':' :: '%' :: 'S' :: [])
      (pad2 v.day ++ 'T' :: (pad2 v.hour ++ ':' :: (pad2 v.minute ++ ':' :: (pad2 v.second ++ []))))
      = some ({ d := some v.day, H := some v.hour, M := some v.minute,
                S := some v.second } : RawFields) := by
    rw [runF_pctd, num2_pad2 s2T hvd1 hvd31 (by omega)]
  have s1d : runF false
      ('-' :: '%' :: 'd' :: 'T' :: '%' :: 'H' :: ':' :: '%' :: 'M' :: ':' :: '%' :: 'S' :: [])
      ('-' :: (pad2 v.day ++ 'T' :: (pad2 v.hour ++ ':' :: (pad2 v.minute ++ ':' :: (pad2 v.second ++ [])))))
      = some ({ d := some v.day, H := some v.hour, M := some v.minute,
                S := some v.second } : RawFields) := by
    rw [runF_lit (by decide) (by decide)]
    exact s2
  have s1 : runF false
      ('%' :: 'm' :: '-' :: '%' :: 'd' :: 'T' :: '%' :: 'H' :: ':' :: '%' :: 'M' :: ':' :: '%' :: 'S' :: [])
      (pad2 v.month ++ '-' :: (pad2 v.day ++ 'T' :: (pad2 v.hour ++ ':' :: (pad2 v.minute ++ ':' :: (pad2 v.second ++ [])))))
      = some ({ m := some v.month, d := some v.day, H := some v.hour,
                M := some v.minute, S := some v.second } : RawFields) := by
    rw [runF_pctm, num2_pad2 s1d hvm1 hvm12 (by omega)]
  have s0d : runF false
      ('-' :: '%' :: 'm' :: '-' :: '%' :: 'd' :: 'T' :: '%' :: 'H' :: ':' :: '%' :: 'M' :: ':' :: '%' :: 'S' :: [])
      ('-' :: (pad2 v.month ++ '-' :: (pad2 v.day ++ 'T' :: (pad2 v.hour ++ ':' :: (pad2 v.minute ++ ':' :: (pad2 v.second ++ []))))))
      = some ({ m := some v.month, d := some v.day, H := some v.hour,
                M := some v.minute, S := some v.second } : RawFields) := by
    rw [runF_lit (by decide) (by decide)]
    exact s1
  have s0 : runF false
      ('%' :: 'Y' :: '-' :: '%' :: 'm' :: '-' :: '%' :: 'd' :: 'T' :: '%' :: 'H' :: ':' :: '%' :: 'M' :: ':' :: '%' :: 'S' :: [])
      (pad4 v.year ++ '-' :: (pad2 v.month ++ '-' :: (pad2 v.day ++ 'T' :: (pad2 v.hour ++ ':' :: (pad2 v.minute ++ ':' :: (pad2 v.second ++ []))))))
      = some ({ Y := some v.year, m := some v.month, d := some v.day,
                H := some v.hour, M := some v.minute,
                S := some v.second } : RawFields) := by
    rw [runF_pctY, num4_pad4 s0d hv9]
  unfold strptime
  rw [if_pos (by decide)]
  have hfd : ("%Y-%m-%dT%H:%M:%S" : String).data
      = '%' :: 'Y' :: '-' :: '%' :: 'm' :: '-' :: '%' :: 'd' :: 'T' :: '%' :: 'H' :: ':' :: '%' :: 'M' :: ':' :: '%' :: 'S' :: [] := rfl
  have hid : (isoformat v).data
      = pad4 v.year ++ '-' :: (pad2 v.month ++ '-' :: (pad2 v.day ++ 'T' :: (pad2 v.hour ++ ':' :: (pad2 v.minute ++ ':' :: (pad2 v.second ++ []))))) := by
    unfold isoformat
    simp
  rw [hfd, hid, s0]
  unfold mkDateTime
  try dsimp only
  rw [if_pos ⟨hval.1, hvm1, hvm12, hvd1, hval.2.2.2.2.2.1, hvh, hvmi, hvs⟩]
  simp only [Option.getD_some]

/- ## Helpers for the claim theorems -/

theorem strLeB_total : ∀ as1 bs1, strLeB as1 bs1 = true ∨ strLeB bs1 as1 = true := by
  intro as1
  induction as1 with
  | nil => intro bs1; left; rfl
  | cons a as2 ih =>
    intro bs1
    cases bs1 with
    | nil => right; rfl
    | cons b bs2 =>
      by_cases hab : a.toNat < b.toNat
      · left; simp [strLeB, hab]
      · by_cases hba : b.toNat < a.toNat
        · right; simp [strLeB, hba]
        · rcases ih bs2 with h | h
          · left; simp [strLeB, hab, hba, h]
          · right; simp [strLeB, hab, hba, h]

theorem strLeB_trans : ∀ as1 bs1 cs1, strLeB as1 bs1 = true →
    strLeB bs1 cs1 = true → strLeB as1 cs1 = true := by
  intro as1
  induction as1 with
  | nil => intro bs1 cs1 _ _; rfl
  | cons a as2 ih =>
    intro bs1 cs1 hab hbc
    cases bs1 with
    | nil => exact absurd hab (by simp [strLeB])
    | cons b bs2 =>
      cases cs1 with
      | nil => exact absurd hbc (by simp [strLeB])
      | cons c cs2 =>
        simp only [strLeB] at hab hbc ⊢
        split_ifs at hab hbc ⊢ <;>
          first
          | rfl
          | exact ih bs2 cs2 hab hbc
          | (exfalso; omega)
          | simp at hab
          | simp at hbc

theorem strLength_append (s t : String) : (s ++ t).length = s.length + t.length :=
  String.length_append s t

theorem okOrMsg_of {α : Type} {r : Except ErrPayload α}
    (h : ∀ e, r = .error e → 0 < e.message.length) : okOrMsg r := by
  unfold okOrMsg
  match r with
  | .ok a => exact trivial
  | .error e => exact h e rfl

theorem lookupZone_none {env : Env} {t : String}
    (h : t ∉ available_timezones env) : lookupZone env t = none := by
  unfold lookupZone
  rw [List.find?_eq_none]
  intro z hz hbeq
  exact h (List.mem_map.mpr ⟨z, hz, by simpa using hbeq⟩)

theorem lexLt_trichot (a b : DateTime) :
    (lexLt a b ∧ ¬ lexLt b a ∧ a ≠ b) ∨
    (¬ lexLt a b ∧ lexLt b a ∧ a ≠ b) ∨
    (¬ lexLt a b ∧ ¬ lexLt b a ∧ a = b) := by
  cases a with | mk ay amo ad ah ami asec =>
  cases b with | mk cy cmo cd ch cmi csec =>
  simp only [lexLt, ne_eq, DateTime.mk.injEq]
  omega

theorem convertTs_ok {env : Env} {ts : Int} {offOpt : Option Int}
    {label : String} {p : UnixPayload}
    (h : convertTs env ts offOpt label = .ok p) :
    p.unix_timestamp = ts ∧
    (toSeconds p.value : Int) = ts + offOpt.getD (env.localRule ts) + epochSecs := by
  unfold convertTs at h
  split at h
  · exact absurd h (by simp)
  · dsimp only at h
    split at h
    · rename_i hcond
      rw [Except.ok.injEq] at h
      subst h
      refine ⟨rfl, ?_⟩
      dsimp only
      have hlt : (ts + offOpt.getD (env.localRule ts) + epochSecs).toNat < maxCivilSeconds := by
        omega
      rw [toSeconds_fromSeconds hlt]
      omega
    · exact absurd h (by simp)

theorem localProbe_ok {env : Env} {u l : Int} (h : localProbe env u = .ok l) :
    l = u + env.localRule u := by
  unfold localProbe at h
  dsimp only at h
  split at h
  · rw [Except.ok.injEq] at h
    exact h.symm
  · exact absurd h (by simp)

/-- Under a constant local offset rule, a successful `_mktime` inverts the
civil time exactly. -/
theorem naiveTimestamp_const {env : Env}
    (hcst : ∀ u v : Int, env.localRule u = env.localRule v)
    {dt : DateTime} {w : Int} (h : naiveTimestamp env dt = .ok w) :
    w = (toSeconds dt : Int) - epochSecs - env.localRule 0 := by
  have hr : ∀ v, env.localRule v = env.localRule 0 := fun v => hcst v 0
  unfold naiveTimestamp at h
  try dsimp only at h
  split at h
  · exact absurd h (by simp)
  · rename_i lt0 hp1
    try dsimp only at h
    split at h
    · exact absurd h (by simp)
    · rename_i t1 hp2
      split at h
      · rename_i ht1
        split at h
        · exact absurd h (by simp)
        · rename_i lu2 hp3
          split at h
          · rw [Except.ok.injEq] at h
            have hl0 := localProbe_ok hp1
            rw [hr] at hl0
            omega
          · rename_i hab
            exfalso
            have hl0 := localProbe_ok hp1
            have hl2 := localProbe_ok hp3
            rw [hr] at hl0
            rw [hr] at hl2
            omega
      · rename_i ht1
        exfalso
        have hl0 := localProbe_ok hp1
        have hl1 := localProbe_ok hp2
        rw [hr] at hl0
        rw [hr] at hl1
        omega

theorem mem_sortedZoneNames {env : Env} {z : String} :
    z ∈ sortedZoneNames env ↔ z ∈ available_timezones env := by
  unfold sortedZoneNames
  exact (List.perm_insertionSort _ _).mem_iff

theorem prefix_len_pos {a : String} (b : String) (h : 0 < a.length) :
    0 < (a ++ b).length := by
  rw [strLength_append]; omega

/-- C1: every one of the eight operations, on every input, returns a
structured result: a success payload, or an error payload whose
human-readable message is nonempty; no operation propagates a fault. -/
theorem C1_every_op_returns_structured_result (env : Env)
    (tza tzb ft : Option String) (tzc ds fs t1 t2 bs : String)
    (d h mi s u : Int) :
    okOrMsg (get_current_time env tza) ∧
    okOrMsg (get_timezone_info env tzc) ∧
    okOrMsg (list_timezones env ft) ∧
    okOrMsg (parse_datetime env ds fs) ∧
    okOrMsg (compare_times t1 t2 fs) ∧
    okOrMsg (add_time_delta env bs d h mi s fs) ∧
    0 < (is_valid_datetime ds fs).message.length ∧
    okOrMsg (unix_to_datetime env u tzb) := by
  refine ⟨?_, ?_, ?_, ?_, ?_, ?_, ?_, ?_⟩
  · apply okOrMsg_of; intro e he
    unfold get_current_time at he
    rcases tza with _ | t
    · simp at he
    · try dsimp only at he
      split at he
      · split at he
        · rw [Except.error.injEq] at he; subst he
          exact prefix_len_pos t (by decide)
        · simp at he
      · simp at he
  · apply okOrMsg_of; intro e he
    unfold get_timezone_info at he
    split at he
    · rw [Except.error.injEq] at he; subst he
      exact prefix_len_pos tzc (by decide)
    · simp at he
  · apply okOrMsg_of; intro e he
    unfold list_timezones at he
    simp at he
  · apply okOrMsg_of; intro e he
    unfold parse_datetime at he
    split at he
    · split at he
      · simp at he
      · rename_i msg hmeq
        rw [Except.error.injEq] at he; subst he
        exact prefix_len_pos msg (by decide)
    · rename_i msg hmeq
      rw [Except.error.injEq] at he; subst he
      exact prefix_len_pos msg (by decide)
  · apply okOrMsg_of; intro e he
    unfold compare_times at he
    split at he
    · rename_i msg hmeq
      rw [Except.error.injEq] at he; subst he
      exact prefix_len_pos msg (by decide)
    · split at he
      · rename_i msg hmeq
        rw [Except.error.injEq] at he; subst he
        exact prefix_len_pos msg (by decide)
      · simp at he
  · apply okOrMsg_of; intro e he
    unfold add_time_delta at he
    split at he
    · rename_i msg hmeq
      rw [Except.error.injEq] at he; subst he
      exact prefix_len_pos msg (by decide)
    · try dsimp only at he
      split at he
      · split at he
        · simp at he
        · rename_i msg hmeq
          rw [Except.error.injEq] at he; subst he
          exact prefix_len_pos msg (by decide)
      · rw [Except.error.injEq] at he; subst he
        decide
  · unfold is_valid_datetime
    split
    · dsimp only
      decide
    · dsimp only
      decide
  · apply okOrMsg_of; intro e he
    unfold unix_to_datetime convertTs at he
    rcases tzb with _ | t
    · try dsimp only at he
      split at he
      · rw [Except.error.injEq] at he; subst he; decide
      · try dsimp only at he
        split at he
        · simp at he
        · rw [Except.error.injEq] at he; subst he; decide
    · try dsimp only at he
      split at he
      · split at he
        · rw [Except.error.injEq] at he; subst he
          exact prefix_len_pos t (by decide)
        · split at he
          · rw [Except.error.injEq] at he; subst he; decide
          · try dsimp only at he
            split at he
            · simp at he
            · rw [Except.error.injEq] at he; subst he; decide
      · split at he
        · rw [Except.error.injEq] at he; subst he; decide
        · try dsimp only at he
          split at he
          · simp at he
          · rw [Except.error.injEq] at he; subst he; decide

/-- C10: whenever `compare_times` succeeds, exactly one of the three
booleans `time1_is_before_time2`, `time1_is_after_time2`, `times_are_equal`
is true — in every case, not only the typical one. -/
theorem C10_comparison_booleans_trichotomy {t1 t2 fs : String}
    {p : ComparePayload} (hp : compare_times t1 t2 fs = .ok p) :
    (p.time1_is_before_time2 = true ∧ p.time1_is_after_time2 = false ∧
      p.times_are_equal = false) ∨
    (p.time1_is_before_time2 = false ∧ p.time1_is_after_time2 = true ∧
      p.times_are_equal = false) ∨
    (p.time1_is_before_time2 = false ∧ p.time1_is_after_time2 = false ∧
      p.times_are_equal = true) := by
  unfold compare_times at hp
  cases h1 : strptime t1 fs with
  | error m => rw [h1] at hp; exact absurd hp (by simp)
  | ok dt1 =>
  rw [h1] at hp
  cases h2 : strptime t2 fs with
  | error m => rw [h2] at hp; exact absurd hp (by simp)
  | ok dt2 =>
      rw [h2] at hp
      simp only [Except.ok.injEq] at hp
      subst hp
      rcases lexLt_trichot dt1 dt2 with ⟨h1, h2, h3⟩ | ⟨h1, h2, h3⟩ | ⟨h1, h2, h3⟩
      · exact Or.inl ⟨decide_eq_true h1, decide_eq_false h2, decide_eq_false h3⟩
      · exact Or.inr (Or.inl ⟨decide_eq_false h1, decide_eq_true h2, decide_eq_false h3⟩)
      · exact Or.inr (Or.inr ⟨decide_eq_false h1, decide_eq_false h2, decide_eq_true h3⟩)

theorem C10_comparison_booleans_trichotomy_witness :
    (cmpP1.time1_is_before_time2 = true ∧ cmpP1.time1_is_after_time2 = false ∧
      cmpP1.times_are_equal = false) ∨
    (cmpP1.time1_is_before_time2 = false ∧ cmpP1.time1_is_after_time2 = true ∧
      cmpP1.times_are_equal = false) ∨
    (cmpP1.time1_is_before_time2 = false ∧ cmpP1.time1_is_after_time2 = false ∧
      cmpP1.times_are_equal = true) :=
  @C10_comparison_booleans_trichotomy "2025-01-01 00:00:00" "2025-12-31 23:59:59"
    "%Y-%m-%d %H:%M:%S" cmpP1 (by decide)

/-- C2 (amended): when both strings parse, `difference_seconds` is the
signed second difference time2 minus time1, `difference_days` is the FLOOR
of that difference by 86400 (Python's `timedelta.days` normalisation, which
rounds toward negative infinity, not toward zero), and the
`difference_formatted` decomposition is of the absolute difference, with
hours < 24, minutes < 60, seconds < 60, recombining exactly to the absolute
value of `difference_seconds`. -/
theorem C2_compare_difference_fields {t1 t2 fs : String} {d1 d2 : DateTime}
    {p : ComparePayload}
    (h1 : strptime t1 fs = .ok d1) (h2 : strptime t2 fs = .ok d2)
    (hp : compare_times t1 t2 fs = .ok p) :
    p.difference_seconds = (toSeconds d2 : Int) - (toSeconds d1 : Int) ∧
    p.difference_days = Int.fdiv p.difference_seconds 86400 ∧
    p.difference_formatted.hours < 24 ∧
    p.difference_formatted.minutes < 60 ∧
    p.difference_formatted.seconds < 60 ∧
    p.difference_formatted.days * 86400 + p.difference_formatted.hours * 3600 +
      p.difference_formatted.minutes * 60 + p.difference_formatted.seconds
      = p.difference_seconds.natAbs := by
  unfold compare_times at hp
  rw [h1, h2] at hp
  simp only [Except.ok.injEq] at hp
  subst hp
  refine ⟨rfl, rfl, ?_, ?_, ?_, ?_⟩ <;> dsimp only <;> omega

/-- C2 counterexample: on a one-second negative difference the operation
returns `difference_days = -1` (floor semantics), while the signed
difference in whole days is `0`. -/
theorem C2_difference_days_floor_counterexample :
    compare_times "2025-01-01 00:00:01" "2025-01-01 00:00:00"
      "%Y-%m-%d %H:%M:%S" = .ok cmpP0 ∧
    cmpP0.difference_seconds = -1 ∧
    cmpP0.difference_days = -1 ∧
    specSignedWholeDays cmpP0.difference_seconds = 0 ∧
    cmpP0.difference_days ≠ specSignedWholeDays cmpP0.difference_seconds := by
  refine ⟨by decide, by decide, by decide, by decide, by decide⟩

theorem C2_compare_difference_fields_witness :
    cmpP0.difference_days = Int.fdiv cmpP0.difference_seconds 86400 :=
  (@C2_compare_difference_fields "2025-01-01 00:00:01" "2025-01-01 00:00:00"
    "%Y-%m-%d %H:%M:%S" ⟨2025, 1, 1, 0, 0, 1⟩ ⟨2025, 1, 1, 0, 0, 0⟩ cmpP0
    (by decide) (by decide) (by decide)).2.1

/-- C4 (amended): a NONEMPTY zone name that is not in the timezone database
yields a structured error in all three zone-taking operations (with a
sample of valid names in `get_current_time`, a hint in the other two);
the empty string, although not a database member, is falsy in Python, so
`get_current_time` and `unix_to_datetime` silently fall back to local time
and succeed, while `get_timezone_info` does reject it. -/
theorem C4_invalid_timezone_rejected (env : Env) (t : String) (u : Int)
    (hne : t ≠ "") (hnm : t ∉ available_timezones env) :
    (∃ e, get_current_time env (some t) = .error e ∧
      e.available_timezones_sample = some ((sortedZoneNames env).take 10)) ∧
    (∃ e, get_timezone_info env t = .error e ∧
      e.hint = some "Use list_timezones to see available options") ∧
    (∃ e, unix_to_datetime env u (some t) = .error e ∧
      e.hint = some "Use list_timezones to see available options") := by
  have hl : lookupZone env t = none := lookupZone_none hnm
  refine ⟨?_, ?_, ?_⟩
  · unfold get_current_time
    dsimp only
    rw [if_pos hne, hl]
    exact ⟨_, rfl, rfl⟩
  · unfold get_timezone_info
    rw [hl]
    exact ⟨_, rfl, rfl⟩
  · unfold unix_to_datetime
    dsimp only
    rw [if_pos hne, hl]
    exact ⟨_, rfl, rfl⟩

/-- C4 counterexample: the empty string is not a member of the timezone
database, yet `get_current_time` succeeds on it instead of returning the
invalid-timezone error (Python's `if tz:` treats `""` as absent). -/
theorem C4_empty_string_succeeds_counterexample :
    "" ∉ available_timezones env0 ∧
    (∃ p, get_current_time env0 (some "") = .ok p) ∧
    (∃ p, unix_to_datetime env0 0 (some "") = .ok p) := by
  refine ⟨by decide, ⟨_, rfl⟩, ⟨_, rfl⟩⟩

theorem C4_invalid_timezone_rejected_witness :
    ∃ e, get_timezone_info env0 "Nope" = .error e ∧
      e.hint = some "Use list_timezones to see available options" :=
  (C4_invalid_timezone_rejected env0 "Nope" 0 (by decide) (by decide)).2.1

/-- C5 (amended): the render-reparse direction holds at the level of the
parsed value: for any string that parses under a format, re-rendering the
parsed value with that format and parsing again returns the same value
(provided the year is at least 1000, since `%Y` renders smaller years
unpadded and then no longer parses as four digits).  The rendered string
itself need not equal the original input, because parsing is lenient about
zero-padding. -/
theorem C5_parse_render_parse_round_trip {s f : String} {v : DateTime}
    (h : strptime s f = .ok v) (hy : 1000 ≤ v.year) :
    strptime (strftime v f) f = .ok v :=
  strptime_strftime h hy

/-- C5 counterexample: `"2025-1-21"` parses under `"%Y-%m-%d"` (the
two-digit directives accept one digit), but re-rendering the parsed value
with the same format yields `"2025-01-21"`, not the original string. -/
theorem C5_render_not_original_counterexample :
    strptime "2025-1-21" "%Y-%m-%d" = .ok ⟨2025, 1, 21, 0, 0, 0⟩ ∧
    strftime ⟨2025, 1, 21, 0, 0, 0⟩ "%Y-%m-%d" = "2025-01-21" ∧
    ("2025-01-21" : String) ≠ "2025-1-21" := by
  refine ⟨by decide, by decide, by decide⟩

theorem C5_parse_render_parse_round_trip_witness :
    strptime (strftime ⟨2025, 1, 21, 0, 0, 0⟩ "%Y-%m-%d") "%Y-%m-%d"
      = .ok ⟨2025, 1, 21, 0, 0, 0⟩ :=
  @C5_parse_render_parse_round_trip "2025-1-21" "%Y-%m-%d" ⟨2025, 1, 21, 0, 0, 0⟩
    (by decide) (by decide)

/-- C6 (amended): whenever `unix_to_datetime` succeeds, the payload echoes
the input timestamp verbatim, and converting the returned ISO instant back
in the same zone reproduces it in two cases: always when an explicit valid
zone was given (the aware ISO string carries its offset, so the back
conversion is exact arithmetic); and, in the naive local branch, whenever
the local zone has a constant UTC offset and the back conversion through
`_mktime` succeeds.  At a DST fold of the local zone the naive ISO string
has lost the fold and the back conversion provably lands on the earlier
occurrence instead. -/
theorem C6_unix_round_trip_amended (env : Env) (ts : Int)
    (tz : Option String) {p : UnixPayload}
    (hp : unix_to_datetime env ts tz = .ok p) :
    p.unix_timestamp = ts ∧
    (∀ t z, tz = some t → t ≠ "" → lookupZone env t = some z →
      backToUnix env p (offsetUsed env tz ts) = .ok ts) ∧
    ((tz = none ∨ tz = some "") →
      (∀ u v : Int, env.localRule u = env.localRule v) →
      ∀ w, backToUnix env p (offsetUsed env tz ts) = .ok w → w = ts) := by
  unfold unix_to_datetime at hp
  rcases tz with _ | t
  · dsimp only at hp
    have h := convertTs_ok hp
    have h2 := h.2
    simp only [Option.getD_none] at h2
    refine ⟨h.1, ?_, ?_⟩
    · intro t z htz
      exact absurd htz (by simp)
    · intro _ hcst w hw
      rw [show backToUnix env p (offsetUsed env none ts)
            = naiveTimestamp env p.value from rfl] at hw
      have hval := naiveTimestamp_const hcst hw
      have hr := hcst ts 0
      omega
  · dsimp only at hp
    by_cases ht : t = ""
    · rw [if_neg (by simp [ht])] at hp
      have h := convertTs_ok hp
      have h2 := h.2
      simp only [Option.getD_none] at h2
      refine ⟨h.1, ?_, ?_⟩
      · intro t' z htz hne
        rw [Option.some.injEq] at htz
        rw [← htz] at hne
        exact absurd ht hne
      · intro _ hcst w hw
        subst ht
        rw [show backToUnix env p (offsetUsed env (some "") ts)
              = naiveTimestamp env p.value from rfl] at hw
        have hval := naiveTimestamp_const hcst hw
        have hr := hcst ts 0
        omega
    · rw [if_pos ht] at hp
      cases hl : lookupZone env t with
      | none => rw [hl] at hp; exact absurd hp (by simp)
      | some z =>
        rw [hl] at hp
        dsimp only at hp
        have h := convertTs_ok hp
        have h2 := h.2
        simp only [Option.getD_some] at h2
        refine ⟨h.1, ?_, ?_⟩
        · intro t' z' htz hne hlz
          rw [Option.some.injEq] at htz
          subst htz
          unfold backToUnix offsetUsed
          dsimp only
          rw [if_pos ht, hl]
          dsimp only
          rw [Except.ok.injEq]
          omega
        · intro hc
          rcases hc with hc | hc
          · exact absurd hc (by simp)
          · rw [Option.some.injEq] at hc
            exact absurd hc ht

theorem C6_unix_round_trip_amended_witness :
    backToUnix env0 pU0 (offsetUsed env0 (some "UTC") 1732204800)
      = .ok 1732204800 :=
  (@C6_unix_round_trip_amended env0 1732204800 (some "UTC") pU0
    (by decide)).2.1 "UTC" ⟨"UTC", fun _ => 0, fun _ => "UTC"⟩ rfl (by decide) rfl

/-- C6 counterexample: at the 2024-11-03 fall-back of the local zone, Unix
instant 1730615400 (01:30 EST) converts to the naive civil time 01:30:00,
whose ISO string has lost the fold; converting it back in the same zone
runs `_mktime` with `fold = 0`, which returns the earlier (EDT) occurrence
1730611800, not the original timestamp. -/
theorem C6_dst_fold_counterexample :
    ∃ p, unix_to_datetime env1 1730615400 none = .ok p ∧
      p.value = ⟨2024, 11, 3, 1, 30, 0⟩ ∧
      backToUnix env1 p (offsetUsed env1 none 1730615400) = .ok 1730611800 ∧
      (1730611800 : Int) ≠ 1730615400 := by
  refine ⟨_, rfl, by decide, by decide, by decide⟩

/-- C7 (amended): with a resolvable (valid, empty, or omitted) zone, an
out-of-range timestamp always yields a structured error and never a crash,
but the hint is present only on the `ValueError`/`OSError` path (timestamp
within the platform's `time_t` but outside calendar years 1..9999); a
timestamp beyond 64-bit `time_t` raises `OverflowError`, which only the
generic handler catches, producing an error payload with a message and NO
hint. -/
theorem C7_out_of_range_timestamp_error (env : Env) (ts : Int)
    (tz : Option String)
    (htz : ∀ t, tz = some t → t ≠ "" → (lookupZone env t).isSome = true) :
    (ts < -(2 ^ 63) ∨ (2 ^ 63 : Int) ≤ ts →
      ∃ e, unix_to_datetime env ts tz = .error e ∧
        e.hint = none ∧ 0 < e.message.length) ∧
    (-(2 ^ 63) ≤ ts → ts < 2 ^ 63 →
      (ts + effOffset env tz ts + epochSecs < 0 ∨
        (maxCivilSeconds : Int) ≤ ts + effOffset env tz ts + epochSecs) →
      ∃ e, unix_to_datetime env ts tz = .error e ∧
        e.hint = some "Timestamp should be a valid Unix timestamp in seconds") := by
  have main : ∀ (offOpt : Option Int) (label : String),
      offOpt.getD (env.localRule ts) = effOffset env tz ts →
      ((ts < -(2 ^ 63) ∨ (2 ^ 63 : Int) ≤ ts →
        ∃ e, convertTs env ts offOpt label = .error e ∧
          e.hint = none ∧ 0 < e.message.length) ∧
      (-(2 ^ 63) ≤ ts → ts < 2 ^ 63 →
        (ts + effOffset env tz ts + epochSecs < 0 ∨
          (maxCivilSeconds : Int) ≤ ts + effOffset env tz ts + epochSecs) →
        ∃ e, convertTs env ts offOpt label = .error e ∧
          e.hint = some "Timestamp should be a valid Unix timestamp in seconds")) := by
    intro offOpt label hoff
    constructor
    · intro hrange
      unfold convertTs
      rw [if_pos hrange]
      exact ⟨_, rfl, rfl, by decide⟩
    · intro hlo hhi hciv
      unfold convertTs
      rw [if_neg (by omega)]
      dsimp only
      rw [hoff]
      rw [if_neg (by omega)]
      exact ⟨_, rfl, rfl⟩
  unfold unix_to_datetime
  rcases tz with _ | t
  · exact main none "local" rfl
  · dsimp only
    by_cases ht : t = ""
    · subst ht
      rw [if_neg (by decide)]
      refine main none "local" ?_
      unfold effOffset offsetUsed
      dsimp only
      rw [if_neg (by decide)]
    · rw [if_pos ht]
      have hsome : (lookupZone env t).isSome = true := htz t rfl ht
      cases hl : lookupZone env t with
      | none => simp [hl] at hsome
      | some z =>
        dsimp only
        refine main (some (z.offset ts)) t ?_
        unfold effOffset offsetUsed
        dsimp only
        rw [if_pos ht, hl]

/-- C7 counterexample: `2 ^ 63` overflows the platform `time_t`; the
resulting `OverflowError` is not a `ValueError` or `OSError`, so the
operation's error payload carries no hint, contradicting the claim that
out-of-range timestamps always come with a hint. -/
theorem C7_overflow_has_no_hint_counterexample :
    ∃ e, unix_to_datetime env0 (2 ^ 63) none = .error e ∧
      e.hint = none ∧
      e.message = "timestamp out of range for platform time_t" := by
  exact ⟨_, rfl, rfl, rfl⟩

theorem C7_out_of_range_timestamp_error_witness :
    ∃ e, unix_to_datetime env0 (-(2 ^ 63) - 1) none = .error e ∧
      e.hint = none ∧ 0 < e.message.length :=
  (C7_out_of_range_timestamp_error env0 (-(2 ^ 63) - 1) none
    (fun t h => nomatch h)).1 (Or.inl (by decide))

/-- C8 (amended): when `add_time_delta` succeeds on a parsed base with
delta (d, h, m, s), applying it again to the resulting instant (its
rendered ISO string) with the negated delta reproduces the original parsed
instant, provided the original instant's own `int(dt.timestamp())` stays in
range; without that proviso the reverse call's timestamp probe can leave
years 1..9999 and the operation returns an error payload instead. -/
theorem C8_add_delta_inverse_amended (env : Env) (bs fs : String)
    (d h m s : Int) {dt : DateTime} {p : AddDeltaPayload}
    (hparse : strptime bs fs = .ok dt)
    (hmk : ∃ w, naiveTimestamp env dt = .ok w)
    (hp : add_time_delta env bs d h m s fs = .ok p) :
    ∃ p2, add_time_delta env p.result (-d) (-h) (-m) (-s)
        "%Y-%m-%dT%H:%M:%S" = .ok p2 ∧
      p2.result = isoformat dt := by
  have hval : validDT dt := strptime_valid hparse
  have hmax := toSeconds_lt_max hval
  unfold add_time_delta at hp
  rw [hparse] at hp
  dsimp only at hp
  split at hp
  · rename_i hcond
    split at hp
    · rename_i uts huts
      simp only [Except.ok.injEq] at hp
      subst hp
      have hn : ((toSeconds dt : Int) + (d * 86400 + h * 3600 + m * 60 + s)).toNat
          < maxCivilSeconds := by omega
      have hvn : validDT (fromSeconds
          ((toSeconds dt : Int) + (d * 86400 + h * 3600 + m * 60 + s)).toNat) :=
        fromSeconds_valid hn
      have hts := toSeconds_fromSeconds hn
      unfold add_time_delta
      dsimp only
      rw [strptime_isoformat hvn]
      dsimp only
      have hkey : (toSeconds (fromSeconds
            ((toSeconds dt : Int) + (d * 86400 + h * 3600 + m * 60 + s)).toNat) : Int)
          + ((-d) * 86400 + (-h) * 3600 + (-m) * 60 + (-s))
          = ((toSeconds dt : Nat) : Int) := by
        rw [hts]
        omega
      rw [hkey]
      rw [if_pos ⟨by omega, by omega⟩]
      have h3 : ((toSeconds dt : Nat) : Int).toNat = toSeconds dt := by omega
      rw [h3, fromSeconds_toSeconds hval]
      obtain ⟨w, hw⟩ := hmk
      rw [hw]
      exact ⟨_, rfl, rfl⟩
    · exact absurd hp (by simp)
  · exact absurd hp (by simp)

theorem C8_add_delta_inverse_amended_witness :
    ∃ p2, add_time_delta env0 pA0.result (-10) (-5) (-30) (-15)
        "%Y-%m-%dT%H:%M:%S" = .ok p2 ∧
      p2.result = isoformat ⟨2025, 1, 1, 0, 0, 0⟩ :=
  @C8_add_delta_inverse_amended env0 "2025-01-01 00:00:00" "%Y-%m-%d %H:%M:%S"
    10 5 30 15 ⟨2025, 1, 1, 0, 0, 0⟩ pA0 (by decide)
    ⟨1735689600, by decide⟩ (by decide)

/-- C8 counterexample: from base `0001-01-01 00:00:00` adding one day
succeeds (every `_mktime` probe stays at or above year 1), but applying the
negated delta to the resulting instant probes one day below year 1, raises
`ValueError`, and returns an error payload instead of the original
instant: addition and subtraction are not mutually inverse. -/
theorem C8_min_datetime_reverse_counterexample :
    ∃ p, add_time_delta env0 "0001-01-01 00:00:00" 1 0 0 0
        "%Y-%m-%d %H:%M:%S" = .ok p ∧
      p.result = "0001-01-02T00:00:00" ∧
      ∃ e, add_time_delta env0 p.result (-1) 0 0 0
          "%Y-%m-%dT%H:%M:%S" = .error e ∧
        e.message = "Failed to parse date: year 0 is out of range" := by
  refine ⟨_, rfl, rfl, _, rfl, rfl⟩

/-- C9: `list_timezones` returns a count equal to the length of the
returned sequence, the sequence is sorted; with no filter (or the falsy
empty filter) it is a permutation of the full set of names, and with a
nonempty filter it holds exactly the names containing the filter text
case-insensitively. -/
theorem C9_list_timezones_sorted_filtered (env : Env) (fo : Option String)
    {p : ListTZPayload} (hp : list_timezones env fo = .ok p) :
    p.count = p.timezones.length ∧
    List.Sorted (fun a b => strLe a b = true) p.timezones ∧
    ((fo = none ∨ fo = some "") → p.timezones.Perm (available_timezones env)) ∧
    (∀ f, fo = some f → f ≠ "" →
      ∀ z, z ∈ p.timezones ↔
        z ∈ available_timezones env ∧ containsCI f z = true) := by
  unfold list_timezones at hp
  haveI : IsTotal String (fun a b => strLe a b = true) :=
    ⟨fun a b => strLeB_total a.data b.data⟩
  haveI : IsTrans String (fun a b => strLe a b = true) :=
    ⟨fun a b c hab hbc => strLeB_trans a.data b.data c.data hab hbc⟩
  have hsorted : List.Sorted (fun a b => strLe a b = true) (sortedZoneNames env) :=
    List.sorted_insertionSort _ _
  have hperm : (sortedZoneNames env).Perm (available_timezones env) :=
    List.perm_insertionSort _ _
  rcases fo with _ | f
  · dsimp only at hp
    simp only [Except.ok.injEq] at hp
    subst hp
    refine ⟨rfl, hsorted, fun _ => hperm, ?_⟩
    intro f hf
    exact absurd hf (by simp)
  · dsimp only at hp
    by_cases hf : f = ""
    · rw [if_neg (by simp [hf])] at hp
      simp only [Except.ok.injEq] at hp
      subst hp
      refine ⟨rfl, hsorted, fun _ => hperm, ?_⟩
      intro f' hf' hne
      rw [Option.some.injEq] at hf'
      subst hf'
      exact absurd hf hne
    · rw [if_pos hf] at hp
      simp only [Except.ok.injEq] at hp
      subst hp
      refine ⟨rfl, ?_, ?_, ?_⟩
      · exact hsorted.sublist (List.filter_sublist _)
      · intro hc
        rcases hc with hc | hc
        · exact absurd hc (by simp)
        · rw [Option.some.injEq] at hc
          exact absurd hc hf
      · intro f' hf' hne z
        rw [Option.some.injEq] at hf'
        subst hf'
        rw [List.mem_filter, mem_sortedZoneNames]

theorem C9_list_timezones_sorted_filtered_witness :
    (⟨2, ["America/New_York", "UTC"]⟩ : ListTZPayload).timezones.Perm
      (available_timezones env0) :=
  (@C9_list_timezones_sorted_filtered env0 none
    ⟨2, ["America/New_York", "UTC"]⟩ (by decide)).2.2.1 (Or.inl rfl)
